import Mathlib

/-!
Verification of the incremental emit scheduler (`src/server/builder.ts`).

This file gives a shallow embedding of the builder: the per-file shape
trackers (`BuilderFileInfo`), the flat scheduler (`NonModuleBuilder`), the
dependency-graph scheduler (`ModuleBuilder`) with its graph maintainer
(`ensureProjectDependencyGraphUpToDate` / `updateFileReferences`), and the
reverse-dependency propagation walk of `getFilesAffectedBy`.

Conventions of the embedding:
* JavaScript object references to `ModuleBuilderFileInfo` nodes are replaced
  by the node's `path` key into the builder's file-info table, which is
  modelled as an insertion-ordered association list (mirroring the insertion
  order of the `Map` created by `createMap`).  Edge lists (`references`,
  `referencedBy`) store the immutable `ScriptInfo` identity of the neighbour
  node; the mutable per-node state lives in the table.
* The lazily created backing map (`fileInfos_doNotAccessDirectly`) is
  represented by starting from the empty association list; `hasFileInfos()`
  is rendered as non-emptiness where it gates behaviour.
* JavaScript string truthiness (`undefined` and `""` are falsy) is modelled
  on `Option String` by `jsFalsyStr`.
* External collaborators (parser, emit backend, hashing, project file set)
  are fields of the `Project` structure, fixed for the duration of a call,
  exactly as the builder only consults them through `this.project`.
* The propagation walk of `ModuleBuilder.getFilesAffectedBy` is a loop whose
  termination is not structural; it is embedded as a step function
  (`walkStep`) iterated with explicit fuel (`walkRun`), and termination with
  sufficient fuel is proved separately for well-formed states.
-/

/-- The identity and flags of a file known to the project
(`ScriptInfo` as consumed by the builder: `path`, `fileName`,
`hasMixedContent`, `isDynamic`, `getLatestVersion()`). -/
structure ScriptInfo where
  path : String
  fileName : String
  hasMixedContent : Bool
  isDynamic : Bool
  latestVersion : String
deriving Repr, DecidableEq

/-- A top-level statement, reduced to the two facts inspected by
`containsOnlyAmbientModules`: whether its kind is `ModuleDeclaration` and
whether its name is a `StringLiteral`. -/
structure Statement where
  isModuleDeclaration : Bool
  nameIsStringLiteral : Bool
deriving Repr, DecidableEq

/-- The structural representation of a file, reduced to the fields the
builder reads: `isDeclarationFile`, `text`, `statements`, and the language's
own verdict `isExternalModule(sourceFile)`. -/
structure SourceFile where
  isDeclarationFile : Bool
  text : String
  statements : List Statement
  isExternalModule : Bool
deriving Repr, DecidableEq

/-- One output artifact of an emit request (`OutputFile`). -/
structure OutputFile where
  name : String
  text : String
  writeByteOrderMark : Bool
deriving Repr, DecidableEq

/-- Result of `project.getFileEmitOutput` (`EmitOutput`). -/
structure EmitOutput where
  emitSkipped : Bool
  outputFiles : List OutputFile
deriving Repr, DecidableEq

/-- The compiler options consulted by the builder: `out`, `outFile`
(string options, so JS truthiness applies) and `isolatedModules`. -/
structure CompilerOptions where
  out : Option String
  outFile : Option String
  isolatedModules : Bool
deriving Repr, DecidableEq

/-- The project, i.e. the external collaborator surface the builder calls
into.  `getScriptInfoByPath` models `project.getScriptInfo(path)`; the
builder assumes the result exists for every path it passes, so it is total
here.  `dtsEmitOutput path` is `getFileEmitOutput(info, emitOnlyDtsFiles =
true)` and `fullEmitOutput path` is the same with `false`. -/
structure Project where
  scriptInfos : List ScriptInfo
  projectVersion : String
  compilerOptions : CompilerOptions
  sourceFiles : String → Option SourceFile
  dtsEmitOutput : String → EmitOutput
  fullEmitOutput : String → EmitOutput
  referencedFiles : String → List String
  allEmittableFiles : List String
  createHash : String → String
  getScriptInfoByPath : String → ScriptInfo
  projectRootPath : Option String

/-- `project.containsScriptInfo(info)`: membership of the file in the
project's current file set. -/
def containsScriptInfo (p : Project) (si : ScriptInfo) : Bool :=
  p.scriptInfos.any fun s => s.path == si.path

/-- `shouldEmitFile(scriptInfo)` from the source:
`!scriptInfo.hasMixedContent && !scriptInfo.isDynamic`. -/
def shouldEmitFile (si : ScriptInfo) : Bool :=
  !si.hasMixedContent && !si.isDynamic

/-- JS falsiness of a possibly-absent string: `undefined` and `""` are
falsy, everything else truthy. -/
def jsFalsyStr (s : Option String) : Bool :=
  s.getD "" == ""

/-- JS truthiness of a possibly-absent string. -/
def jsTruthyStr (s : Option String) : Bool :=
  !jsFalsyStr s

/-- `BuilderFileInfo.containsOnlyAmbientModules`: every top-level statement
is a `ModuleDeclaration` whose name is a `StringLiteral`. -/
def containsOnlyAmbientModules (sf : SourceFile) : Bool :=
  sf.statements.all fun st => st.isModuleDeclaration && st.nameIsStringLiteral

/-- `BuilderFileInfo.isExternalModuleOrHasOnlyAmbientExternalModules`.
The source assumes `getSourceFile()` succeeds here; a missing
representation is rendered as `false` (the conservative branch of the
caller). -/
def isExternalModuleOrHasOnlyAmbientExternalModules (p : Project) (si : ScriptInfo) : Bool :=
  match p.sourceFiles si.path with
  | none => false
  | some sourceFile => sourceFile.isExternalModule || containsOnlyAmbientModules sourceFile

/-- `BuilderFileInfo.updateShapeSignature`, as a pure function from the
stored signature to `(changed, newStoredSignature)`.
* missing representation: return `true`, store nothing new;
* declaration file: store the hash of the full text;
* otherwise: store the hash of the first dts output artifact, if any
  (otherwise the stored signature is left as it was);
* returns `!lastSignature || newSignature !== lastSignature`. -/
def updateShapeSignature (p : Project) (si : ScriptInfo) (lastSignature : Option String) :
    Bool × Option String :=
  match p.sourceFiles si.path with
  | none => (true, lastSignature)
  | some sourceFile =>
    let newSig : Option String :=
      if sourceFile.isDeclarationFile then
        some (p.createHash sourceFile.text)
      else
        match (p.dtsEmitOutput si.path).outputFiles with
        | [] => lastSignature
        | f :: _ => some (p.createHash f.text)
    (jsFalsyStr lastSignature || decide (newSig ≠ lastSignature), newSig)

/-- `singleFileResult` as computed at the top of both `getFilesAffectedBy`
implementations: empty for non-emittable files, else the file itself. -/
def singleFileResult (si : ScriptInfo) : List String :=
  if si.hasMixedContent || si.isDynamic then [] else [si.fileName]

/-! ## Association-list model of `createMap` tables -/

/-- Lookup in an insertion-ordered association list (`map.get(key)`). -/
def alookup {α : Type} : List (String × α) → String → Option α
  | [], _ => none
  | (k', v) :: rest, k => if k' = k then some v else alookup rest k

/-- Replace the value stored under a key, keeping its position; a no-op if
the key is absent. -/
def mapUpdate {α : Type} (m : List (String × α)) (k : String) (v : α) : List (String × α) :=
  m.map fun kv => if kv.1 = k then (k, v) else kv

/-- `map.set(key, value)`: overwrite in place if present, else append. -/
def mapSet {α : Type} (m : List (String × α)) (k : String) (v : α) : List (String × α) :=
  if m.any (fun kv => kv.1 == k) then mapUpdate m k v else m ++ [(k, v)]

/-- `map.delete(key)`. -/
def mapRemove {α : Type} (m : List (String × α)) (k : String) : List (String × α) :=
  m.filter fun kv => kv.1 != k

/-! ## Sorted edge lists

`ModuleBuilderFileInfo.compareFileInfos` orders nodes by `fileName`; the
helpers `insertSorted`, `removeSorted`, `toSortedArray` and
`enumerateInsertsAndDeletes` live in the compiler core, outside the
provided sources, and are modelled here. -/

/-- `compareStrings` (a total order on strings returning a three-way
comparison), as used by `ModuleBuilderFileInfo.compareFileInfos`. -/
def compareStrings (a b : String) : Ordering :=
  if a = b then .eq else if a < b then .lt else .gt

/-- `ModuleBuilderFileInfo.compareFileInfos`: compare two nodes by the
`fileName` of their script info. -/
def compareFileInfos (lf rf : ScriptInfo) : Ordering :=
  compareStrings lf.fileName rf.fileName

/-- Modelled from the spec: sorted insert maintaining the ordering and
uniqueness invariant of the edge lists (`insertSorted` of the compiler
core, absent from the provided sources): the element is inserted at its
sort position unless an element comparing equal is already present. -/
def insertSorted (xs : List ScriptInfo) (x : ScriptInfo) : List ScriptInfo :=
  match xs with
  | [] => [x]
  | y :: ys =>
    match compareFileInfos x y with
    | .lt => x :: y :: ys
    | .eq => y :: ys
    | .gt => y :: insertSorted ys x

/-- Modelled from the spec: sorted removal (`removeSorted` of the compiler
core, absent from the provided sources): remove the element comparing
equal, if present. -/
def removeSorted (xs : List ScriptInfo) (x : ScriptInfo) : List ScriptInfo :=
  match xs with
  | [] => []
  | y :: ys =>
    match compareFileInfos x y with
    | .lt => y :: ys
    | .eq => ys
    | .gt => y :: removeSorted ys x

/-- Modelled from the spec: produce the name-sorted, duplicate-free ordered
set of references (`toSortedArray` over the mapped node list). -/
def toSortedFileInfos (xs : List ScriptInfo) : List ScriptInfo :=
  xs.foldl insertSorted []

/-- The body of the sorted-merge diff loop, driven by a structural counter
(the loop consumes one list element per iteration, so any counter at least
the combined length of both lists gives the loop's actual result; the
counter keeps the definition kernel-computable). -/
def enumerateInsertsAndDeletesAux {σ : Type} (inserted deleted : σ → ScriptInfo → σ) :
    Nat → List ScriptInfo → List ScriptInfo → σ → σ
  | 0, _, _, st => st
  | _ + 1, [], [], st => st
  | k + 1, n :: ns, [], st =>
    enumerateInsertsAndDeletesAux inserted deleted k ns [] (inserted st n)
  | k + 1, [], o :: os, st =>
    enumerateInsertsAndDeletesAux inserted deleted k [] os (deleted st o)
  | k + 1, n :: ns, o :: os, st =>
    match compareFileInfos n o with
    | .lt => enumerateInsertsAndDeletesAux inserted deleted k ns (o :: os) (inserted st n)
    | .gt => enumerateInsertsAndDeletesAux inserted deleted k (n :: ns) os (deleted st o)
    | .eq => enumerateInsertsAndDeletesAux inserted deleted k ns os st

/-- Modelled from the spec: the sorted-merge diff (`enumerateInsertsAndDeletes`
of the compiler core, absent from the provided sources): walk both sorted
sequences in lock-step; an element present only in `news` fires `inserted`,
one present only in `olds` fires `deleted`, elements in both are untouched. -/
def enumerateInsertsAndDeletes {σ : Type} (news olds : List ScriptInfo)
    (inserted deleted : σ → ScriptInfo → σ) (st : σ) : σ :=
  enumerateInsertsAndDeletesAux inserted deleted (news.length + olds.length) news olds st

/-! ## The dependency-graph scheduler's node table -/

/-- `ModuleBuilderFileInfo`: the per-node mutable state.  The neighbour
object references of the source are the `ScriptInfo` identities stored in
`references` / `referencedBy`; the node itself is addressed by
`scriptInfo.path` in the builder's table. -/
structure MBInfo where
  scriptInfo : ScriptInfo
  lastCheckedShapeSignature : Option String
  references : List ScriptInfo
  referencedBy : List ScriptInfo
  scriptVersionForReferences : Option String
deriving Repr, DecidableEq

/-- The table of `ModuleBuilderFileInfo` nodes, keyed by path. -/
abbrev FInfoMap := List (String × MBInfo)

/-- A freshly constructed `ModuleBuilderFileInfo`. -/
def newMBInfo (si : ScriptInfo) : MBInfo :=
  { scriptInfo := si, lastCheckedShapeSignature := none, references := [],
    referencedBy := [], scriptVersionForReferences := none }

/-- `AbstractBuilder.getOrCreateFileInfo` for the module builder. -/
def getOrCreateFileInfo (p : Project) (m : FInfoMap) (path : String) : FInfoMap × MBInfo :=
  match alookup m path with
  | some fi => (m, fi)
  | none =>
    let fi := newMBInfo (p.getScriptInfoByPath path)
    (mapSet m path fi, fi)

/-- `ModuleBuilderFileInfo.addReferencedBy`, addressed by the target node's
path (in the source the target is a live object reference, so the lookup
never fails there). -/
def addReferencedBy (m : FInfoMap) (target : ScriptInfo) (who : ScriptInfo) : FInfoMap :=
  match alookup m target.path with
  | none => m
  | some fi => mapUpdate m target.path { fi with referencedBy := insertSorted fi.referencedBy who }

/-- `ModuleBuilderFileInfo.removeReferencedBy`, addressed by path. -/
def removeReferencedBy (m : FInfoMap) (target : ScriptInfo) (who : ScriptInfo) : FInfoMap :=
  match alookup m target.path with
  | none => m
  | some fi => mapUpdate m target.path { fi with referencedBy := removeSorted fi.referencedBy who }

/-- `ModuleBuilderFileInfo.removeFileReferences`: remove this node from the
`referencedBy` of every node it references, then clear its own
`references`. -/
def removeFileReferences (m : FInfoMap) (path : String) : FInfoMap :=
  match alookup m path with
  | none => m
  | some fi =>
    let m1 := fi.references.foldl (fun acc r => removeReferencedBy acc r fi.scriptInfo) m
    match alookup m1 path with
    | none => m1
    | some fi2 => mapUpdate m1 path { fi2 with references := [] }

/-- `ModuleBuilder.getReferencedFileInfos`: empty for files that are not
module-or-ambient-only; otherwise map each referenced path to its node
(creating nodes on demand) and sort by file name. -/
def getReferencedFileInfos (p : Project) (m : FInfoMap) (fi : MBInfo) :
    FInfoMap × List ScriptInfo :=
  if isExternalModuleOrHasOnlyAmbientExternalModules p fi.scriptInfo = false then (m, [])
  else
    let acc := (p.referencedFiles fi.scriptInfo.path).foldl
      (fun (acc : FInfoMap × List ScriptInfo) f =>
        let r := getOrCreateFileInfo p acc.1 f
        (r.1, acc.2 ++ [r.2.scriptInfo])) (m, [])
    (acc.1, toSortedFileInfos acc.2)

/-- `ModuleBuilder.updateFileReferences`: skip when the stored content
version matches; otherwise diff the recomputed reference list against the
old one with the sorted-merge diff, updating the neighbours' `referencedBy`
edges, and store the new list and version. -/
def updateFileReferences (p : Project) (m : FInfoMap) (path : String) : FInfoMap :=
  match alookup m path with
  | none => m
  | some fi =>
    if fi.scriptVersionForReferences = some fi.scriptInfo.latestVersion then m
    else
      let r := getReferencedFileInfos p m fi
      let m2 := enumerateInsertsAndDeletes r.2 fi.references
        (fun acc n => addReferencedBy acc n fi.scriptInfo)
        (fun acc o => removeReferencedBy acc o fi.scriptInfo) r.1
      match alookup m2 path with
      | none => m2
      | some fi2 => mapUpdate m2 path
          { fi2 with references := r.2,
                     scriptVersionForReferences := some fi.scriptInfo.latestVersion }

/-- The module builder's cached state: the node table and the last-seen
project version stamp. -/
structure ModState where
  fileInfos : FInfoMap
  projectVersionForDependencyGraph : Option String
deriving Repr, DecidableEq

/-- `ModuleBuilder.ensureProjectDependencyGraphUpToDate`: no-op when the
cached project version stamp is truthy and equals the current one;
otherwise ensure a node exists and update references for every current
file, then unlink and drop every node whose file left the project, and
record the new stamp. -/
def ensureProjectDependencyGraphUpToDate (p : Project) (st : ModState) : ModState :=
  if jsFalsyStr st.projectVersionForDependencyGraph ||
      decide (some p.projectVersion ≠ st.projectVersionForDependencyGraph) then
    let m1 := p.scriptInfos.foldl (fun m si =>
      let r := getOrCreateFileInfo p m si.path
      updateFileReferences p r.1 si.path) st.fileInfos
    let m2 := (m1.map (fun kv => kv.1)).foldl (fun acc k =>
      match alookup acc k with
      | none => acc
      | some fi =>
        if containsScriptInfo p fi.scriptInfo then acc
        else mapRemove (removeFileReferences acc k) k) m1
    { fileInfos := m2, projectVersionForDependencyGraph := some p.projectVersion }
  else st

/-- `ModuleBuilder.onProjectUpdateGraph`: refresh the graph only if it was
computed before (`hasFileInfos()`, rendered as a non-empty table). -/
def moduleOnProjectUpdateGraph (p : Project) (st : ModState) : ModState :=
  if st.fileInfos.isEmpty then st else ensureProjectDependencyGraphUpToDate p st

/-! ## The propagation walk of `ModuleBuilder.getFilesAffectedBy` -/

/-- The visited set of the walk (`fileNameSet`): an insertion-ordered map
from file name to script info.  `visitedHas` is `fileNameSet.has`. -/
def visitedHas (v : List (String × ScriptInfo)) (name : String) : Bool :=
  v.any fun kv => kv.1 == name

/-- `fileNameSet.set(name, scriptInfo)`: overwrite in place or append. -/
def visitedSet (v : List (String × ScriptInfo)) (name : String) (si : ScriptInfo) :
    List (String × ScriptInfo) :=
  mapSet v name si

/-- The state of the propagation walk: the node table (the walk updates
shape signatures through the node references it holds), the work queue
(the JS array, with its `push`/`pop` end at the head of the list), and the
visited `fileNameSet`. -/
structure WalkState where
  m : FInfoMap
  queue : List ScriptInfo
  visited : List (String × ScriptInfo)
deriving Repr, DecidableEq

/-- One iteration of the `while (queue.length > 0)` loop: pop a node, call
`updateShapeSignature` on it, and if its shape changed and it has reverse
dependencies, push every reverse dependency not already in the visited
set; finally record the popped node in the visited set.  (The popped node
is always found in the table: the source queue holds live object
references; the `none` branch is unreachable for well-formed states.) -/
def walkStep (p : Project) (ws : WalkState) : WalkState :=
  match ws.queue with
  | [] => ws
  | e :: rest =>
    match alookup ws.m e.path with
    | none => { ws with queue := rest }
    | some fi =>
      let r := updateShapeSignature p fi.scriptInfo fi.lastCheckedShapeSignature
      let m1 := mapUpdate ws.m e.path { fi with lastCheckedShapeSignature := r.2 }
      let queue1 :=
        if r.1 && !fi.referencedBy.isEmpty then
          fi.referencedBy.foldl
            (fun acc q => if visitedHas ws.visited q.fileName then acc else q :: acc) rest
        else rest
      { m := m1, queue := queue1,
        visited := visitedSet ws.visited fi.scriptInfo.fileName fi.scriptInfo }

/-- The walk loop, iterated with explicit fuel; it stops early as soon as
the queue is empty (so any sufficiently large fuel gives the loop's actual
result). -/
def walkRun (p : Project) : Nat → WalkState → WalkState
  | 0, ws => ws
  | n + 1, ws =>
    match ws.queue with
    | [] => ws
    | _ :: _ => walkRun p n (walkStep p ws)

/-- The final `fileNameSet.forEach`: collect, in insertion order, the file
names whose script info passes `shouldEmitFile`. -/
def walkResult (ws : WalkState) : List String :=
  ws.visited.foldl (fun acc kv => if shouldEmitFile kv.2 then acc ++ [kv.1] else acc) []

/-- The walk's start state inside `ModuleBuilder.getFilesAffectedBy`: the
table after the graph refresh and the seed file's own
`updateShapeSignature`, the queue seeded with a shallow copy of the seed
node's `referencedBy` (JS `slice(0)`, with the array's pop end at the list
head), and the visited set seeded with the argument script info. -/
def moduleWalkStart (p : Project) (st : ModState) (si : ScriptInfo) : WalkState :=
  let st1 := ensureProjectDependencyGraphUpToDate p st
  match alookup st1.fileInfos si.path with
  | none => { m := st1.fileInfos, queue := [], visited := [(si.fileName, si)] }
  | some fi =>
    let r := updateShapeSignature p fi.scriptInfo fi.lastCheckedShapeSignature
    { m := mapUpdate st1.fileInfos si.path { fi with lastCheckedShapeSignature := r.2 },
      queue := fi.referencedBy.reverse,
      visited := [(si.fileName, si)] }

/-- `ModuleBuilder.getFilesAffectedBy`: refresh the graph, early-out with
the single-file result when the node is missing or its shape is unchanged,
fall back to the whole project for files that are not
module-or-ambient-only, short-circuit under `isolatedModules`/`out`/
`outFile`, and otherwise run the propagation walk. -/
def moduleGetFilesAffectedBy (fuel : Nat) (p : Project) (st : ModState) (si : ScriptInfo) :
    ModState × List String :=
  let st1 := ensureProjectDependencyGraphUpToDate p st
  match alookup st1.fileInfos si.path with
  | none => (st1, singleFileResult si)
  | some fi =>
    let r := updateShapeSignature p fi.scriptInfo fi.lastCheckedShapeSignature
    let st2 : ModState :=
      { fileInfos := mapUpdate st1.fileInfos si.path { fi with lastCheckedShapeSignature := r.2 },
        projectVersionForDependencyGraph := st1.projectVersionForDependencyGraph }
    if r.1 = false then (st2, singleFileResult si)
    else if isExternalModuleOrHasOnlyAmbientExternalModules p fi.scriptInfo = false then
      (st2, p.allEmittableFiles)
    else if p.compilerOptions.isolatedModules || jsTruthyStr p.compilerOptions.out ||
        jsTruthyStr p.compilerOptions.outFile then
      (st2, singleFileResult si)
    else
      let ws := walkRun p fuel (moduleWalkStart p st si)
      ({ fileInfos := ws.m,
         projectVersionForDependencyGraph := st1.projectVersionForDependencyGraph },
       walkResult ws)

/-! ## The flat scheduler (`NonModuleBuilder`) -/

/-- `BuilderFileInfo` as used by the flat scheduler: just the script info
and the cached shape signature. -/
structure NMInfo where
  scriptInfo : ScriptInfo
  lastCheckedShapeSignature : Option String
deriving Repr, DecidableEq

/-- The flat scheduler's cached state. -/
structure NMState where
  fileInfos : List (String × NMInfo)
deriving Repr, DecidableEq

/-- `AbstractBuilder.getOrCreateFileInfo` for the flat scheduler. -/
def getOrCreateNMInfo (p : Project) (m : List (String × NMInfo)) (path : String) :
    List (String × NMInfo) × NMInfo :=
  match alookup m path with
  | some fi => (m, fi)
  | none =>
    let fi : NMInfo := { scriptInfo := p.getScriptInfoByPath path,
                         lastCheckedShapeSignature := none }
    (mapSet m path fi, fi)

/-- `NonModuleBuilder.getFilesAffectedBy`: a shape change forces either the
single-file result (under `out`/`outFile`) or the full emittable set. -/
def nonModuleGetFilesAffectedBy (p : Project) (st : NMState) (si : ScriptInfo) :
    NMState × List String :=
  let r0 := getOrCreateNMInfo p st.fileInfos si.path
  let info := r0.2
  let r := updateShapeSignature p info.scriptInfo info.lastCheckedShapeSignature
  let m1 := mapUpdate r0.1 si.path { info with lastCheckedShapeSignature := r.2 }
  if r.1 then
    if jsTruthyStr p.compilerOptions.out || jsTruthyStr p.compilerOptions.outFile then
      (⟨m1⟩, singleFileResult si)
    else
      (⟨m1⟩, p.allEmittableFiles)
  else (⟨m1⟩, singleFileResult si)

/-- `NonModuleBuilder.onProjectUpdateGraph`: drop the trackers of files no
longer in the project (only when the table was created before). -/
def nonModuleOnProjectUpdateGraph (p : Project) (st : NMState) : NMState :=
  if st.fileInfos.isEmpty then st
  else
    ⟨(st.fileInfos.map (fun kv => kv.1)).foldl (fun acc k =>
      match alookup acc k with
      | none => acc
      | some fi => if containsScriptInfo p fi.scriptInfo then acc else mapRemove acc k)
      st.fileInfos⟩

/-! ## The shared emit operation -/

/-- Modelled from the spec: `getDirectoryPath(fileName)` (a path utility of
the compiler core, absent from the provided sources): drop the last path
component. -/
def getDirectoryPath (fileName : String) : String :=
  String.intercalate "/" ((fileName.splitOn "/").dropLast)

/-- Modelled from the spec: `getNormalizedAbsolutePath(name, base)` (a path
utility of the compiler core, absent from the provided sources): resolve
the artifact name against the base directory unless it is already
absolute. -/
def getNormalizedAbsolutePath (name base : String) : String :=
  if name.startsWith "/" then name else base ++ "/" ++ name

/-- One call of the `writeFile` callback: (absolute path, text, byte-order
mark flag). -/
abbrev EmitWrite := String × String × Bool

/-- The body of `AbstractBuilder.emitFile` after the file info has been
found: request full emit output and, unless the emit was skipped, write
every artifact at its resolved absolute path.  Returns `!emitSkipped`
together with the sequence of `writeFile` calls. -/
def emitFileOutput (p : Project) (fi : ScriptInfo) (si : ScriptInfo) : Bool × List EmitWrite :=
  let eo := p.fullEmitOutput fi.path
  if eo.emitSkipped then (false, [])
  else
    (true, eo.outputFiles.map fun f =>
      (getNormalizedAbsolutePath f.name
        (match p.projectRootPath with
         | some root => root
         | none => getDirectoryPath si.fileName),
       f.text, f.writeByteOrderMark))

/-- `AbstractBuilder.emitFile` for the flat scheduler:
`ensureFileInfoIfInProject` creates a tracker when the project contains the
file; a missing tracker yields `false` with no write. -/
def nonModuleEmitFile (p : Project) (st : NMState) (si : ScriptInfo) :
    NMState × Bool × List EmitWrite :=
  let m0 := if containsScriptInfo p si then (getOrCreateNMInfo p st.fileInfos si.path).1
            else st.fileInfos
  match alookup m0 si.path with
  | none => (⟨m0⟩, false, [])
  | some fi => (⟨m0⟩, emitFileOutput p fi.scriptInfo si)

/-- `AbstractBuilder.emitFile` for the dependency-graph scheduler:
`ensureFileInfoIfInProject` triggers the graph refresh; a missing node
yields `false` with no write. -/
def moduleEmitFile (p : Project) (st : ModState) (si : ScriptInfo) :
    ModState × Bool × List EmitWrite :=
  let st1 := ensureProjectDependencyGraphUpToDate p st
  match alookup st1.fileInfos si.path with
  | none => (st1, false, [])
  | some fi => (st1, emitFileOutput p fi.scriptInfo si)

/-! ## Basic facts about `updateShapeSignature` -/

/-- Reapplying `updateShapeSignature` to its own stored result stores the
same signature again: within one call (fixed project state) the stored
signature stabilises after one update. -/
theorem updateShapeSignature_snd_idem (p : Project) (si : ScriptInfo) (o : Option String) :
    (updateShapeSignature p si (updateShapeSignature p si o).2).2 =
      (updateShapeSignature p si o).2 := by
  unfold updateShapeSignature
  cases hsf : p.sourceFiles si.path with
  | none => simp
  | some sf =>
    by_cases hd : sf.isDeclarationFile
    · simp [hd]
    · simp only [hd, if_false]
      cases ho : (p.dtsEmitOutput si.path).outputFiles <;> simp

/-- If a second `updateShapeSignature` call (on the signature stored by a
first call) reports a change, then the first call already reported a
change. -/
theorem updateShapeSignature_fst_mono (p : Project) (si : ScriptInfo) (o : Option String)
    (h : (updateShapeSignature p si (updateShapeSignature p si o).2).1 = true) :
    (updateShapeSignature p si o).1 = true := by
  unfold updateShapeSignature at h ⊢
  cases hsf : p.sourceFiles si.path with
  | none => simp
  | some sf =>
    simp only [hsf] at h
    by_cases hd : sf.isDeclarationFile
    · simp only [hd, if_true] at h ⊢
      simp only [Bool.or_eq_true, decide_eq_true_eq] at h ⊢
      rcases h with h | h
      · -- the stored value is `some hash`, which is falsy only if the hash is ""
        simp only [jsFalsyStr] at h ⊢
        rcases o with _ | v
        · simp
        · simp only [Option.getD] at h ⊢
          rcases eq_or_ne (p.createHash sf.text) "" with hh | hh
          · by_cases hv : v = ""
            · simp [hv]
            · right; simp [hh, eq_comm, hv]
          · simp [hh] at h
      · simp at h
    · simp only [hd, if_false] at h ⊢
      cases ho : (p.dtsEmitOutput si.path).outputFiles with
      | nil => simpa [ho] using h
      | cons f fs =>
        simp only [ho] at h ⊢
        simp only [Bool.or_eq_true, decide_eq_true_eq] at h ⊢
        rcases h with h | h
        · simp only [jsFalsyStr] at h ⊢
          rcases o with _ | v
          · simp
          · simp only [Option.getD] at h ⊢
            rcases eq_or_ne (p.createHash f.text) "" with hh | hh
            · by_cases hv : v = ""
              · simp [hv]
              · right; simp [hh, eq_comm, hv]
            · simp [hh] at h
        · simp at h

/-- When the file's representation exists and a signature is actually
produced (declaration file, or a non-empty dts emit) and the hash is never
the empty string, `updateShapeSignature` stores the produced hash and an
immediately repeated call reports no change. -/
theorem updateShapeSignature_repeat_false (p : Project) (si : ScriptInfo) (o : Option String)
    (sf : SourceFile) (hsf : p.sourceFiles si.path = some sf)
    (hstore : sf.isDeclarationFile = true ∨ (p.dtsEmitOutput si.path).outputFiles ≠ [])
    (hhash : ∀ t, p.createHash t ≠ "") :
    (updateShapeSignature p si (updateShapeSignature p si o).2).1 = false := by
  unfold updateShapeSignature
  simp only [hsf]
  by_cases hd : sf.isDeclarationFile
  · simp [hd, jsFalsyStr, hhash sf.text]
  · rcases hstore with hstore | hstore
    · exact absurd hstore hd
    · simp only [hd, if_false]
      cases ho : (p.dtsEmitOutput si.path).outputFiles with
      | nil => exact absurd ho hstore
      | cons f fs => simp [jsFalsyStr, hhash f.text]

/-! ## Claim C3: repeated `updateShapeSignature` calls -/

/-- A non-declaration file whose declarations-only emit produces no output
artifact: `updateShapeSignature` then stores nothing. -/
def c3File : ScriptInfo := ⟨"z", "z.ts", false, false, "1"⟩

/-- A project in which `c3File` has a representation but an empty dts
emit. -/
def c3Proj : Project where
  scriptInfos := [c3File]
  projectVersion := "1"
  compilerOptions := ⟨none, none, false⟩
  sourceFiles := fun _ => some ⟨false, "tz", [], true⟩
  dtsEmitOutput := fun _ => ⟨false, []⟩
  fullEmitOutput := fun _ => ⟨false, []⟩
  referencedFiles := fun _ => []
  allEmittableFiles := ["z.ts"]
  createHash := fun t => "#" ++ t
  getScriptInfoByPath := fun _ => c3File
  projectRootPath := none

/-- Claim C3, counterexample: when no signature is produced (empty dts
output) and none was stored, `updateShapeSignature` returns `true` on the
first call and again `true` on an immediately repeated call with no
underlying change, contradicting the claim that the second call returns
`false`. -/
theorem claim_c3_counterexample :
    (updateShapeSignature c3Proj c3File none).1 = true ∧
      (updateShapeSignature c3Proj c3File (updateShapeSignature c3Proj c3File none).2).1 = true := by
  decide

/-- Claim C3 (amended): after `updateShapeSignature` has returned once, an
immediately repeated call with no underlying change returns `false`,
provided the first call actually produced and stored a signature: the
file's representation exists, it is a declaration file or its dts emit has
at least one output artifact, and the hash is never the empty string. -/
theorem claim_c3_repeat_update_shape_signature (p : Project) (si : ScriptInfo)
    (o : Option String) (sf : SourceFile) (hsf : p.sourceFiles si.path = some sf)
    (hstore : sf.isDeclarationFile = true ∨ (p.dtsEmitOutput si.path).outputFiles ≠ [])
    (hhash : ∀ t, p.createHash t ≠ "") :
    (updateShapeSignature p si (updateShapeSignature p si o).2).1 = false :=
  updateShapeSignature_repeat_false p si o sf hsf hstore hhash

/-- A declaration file used to witness the amended claim C3. -/
def c3DeclFile : ScriptInfo := ⟨"d", "d.ts", false, false, "1"⟩

/-- A project in which `c3DeclFile` is a declaration file. -/
def c3DeclProj : Project where
  scriptInfos := [c3DeclFile]
  projectVersion := "1"
  compilerOptions := ⟨none, none, false⟩
  sourceFiles := fun _ => some ⟨true, "td", [], false⟩
  dtsEmitOutput := fun _ => ⟨false, []⟩
  fullEmitOutput := fun _ => ⟨false, []⟩
  referencedFiles := fun _ => []
  allEmittableFiles := ["d.ts"]
  createHash := fun t => "#" ++ t
  getScriptInfoByPath := fun _ => c3DeclFile
  projectRootPath := none

/-- Witness for the amended claim C3 at a concrete declaration file. -/
theorem claim_c3_repeat_update_shape_signature_witness :
    (updateShapeSignature c3DeclProj c3DeclFile
      (updateShapeSignature c3DeclProj c3DeclFile none).2).1 = false :=
  claim_c3_repeat_update_shape_signature c3DeclProj c3DeclFile none ⟨true, "td", [], false⟩
    rfl (Or.inl rfl) (fun t h => by
      simp only [c3DeclProj] at h
      have h2 := congrArg String.length h
      simp [String.length_append] at h2
      exact absurd h2.1 (by decide))

/-- The graph refresh is skipped when the cached version stamp is truthy
and equals the current one. -/
theorem ensure_skip (p : Project) (st : ModState)
    (hver : st.projectVersionForDependencyGraph = some p.projectVersion)
    (hne : p.projectVersion ≠ "") :
    ensureProjectDependencyGraphUpToDate p st = st := by
  unfold ensureProjectDependencyGraphUpToDate
  rw [hver]
  simp [jsFalsyStr, hne]

/-- `updateFileReferences` is a no-op when the node's stored content
version matches the file's current version. -/
theorem updateFileReferences_skip (p : Project) (m : FInfoMap) (path : String) (fi : MBInfo)
    (hfi : alookup m path = some fi)
    (hver : fi.scriptVersionForReferences = some fi.scriptInfo.latestVersion) :
    updateFileReferences p m path = m := by
  unfold updateFileReferences
  simp [hfi, hver]

/-! ## Claim C7: version-stamp gating -/

/-- Claim C7: when the cached project version stamp is present (and truthy)
and equals the project's current stamp, the graph refresh is a no-op on the
whole builder state; and `updateFileReferences` leaves the node table
entirely unchanged when the node's stored content version equals the file's
current version. -/
theorem claim_c7_version_stamp_gating :
    (∀ (p : Project) (st : ModState) (v : String),
      st.projectVersionForDependencyGraph = some v → v ≠ "" → v = p.projectVersion →
      ensureProjectDependencyGraphUpToDate p st = st) ∧
    (∀ (p : Project) (m : FInfoMap) (path : String) (fi : MBInfo),
      alookup m path = some fi →
      fi.scriptVersionForReferences = some fi.scriptInfo.latestVersion →
      updateFileReferences p m path = m) := by
  constructor
  · intro p st v hv hne hcur
    subst hcur
    exact ensure_skip p st hv hne
  · exact fun p m path fi hfi hver => updateFileReferences_skip p m path fi hfi hver

/-- A one-node table used to witness claim C7. -/
def c7Node : MBInfo :=
  { scriptInfo := ⟨"w", "w.ts", false, false, "3"⟩, lastCheckedShapeSignature := none,
    references := [], referencedBy := [], scriptVersionForReferences := some "3" }

/-- A trivial project whose version stamp is `"5"`. -/
def c7Proj : Project where
  scriptInfos := [⟨"w", "w.ts", false, false, "3"⟩]
  projectVersion := "5"
  compilerOptions := ⟨none, none, false⟩
  sourceFiles := fun _ => none
  dtsEmitOutput := fun _ => ⟨false, []⟩
  fullEmitOutput := fun _ => ⟨false, []⟩
  referencedFiles := fun _ => []
  allEmittableFiles := ["w.ts"]
  createHash := fun t => t
  getScriptInfoByPath := fun _ => ⟨"w", "w.ts", false, false, "3"⟩
  projectRootPath := none

/-- Witness for claim C7 at a concrete builder state. -/
theorem claim_c7_version_stamp_gating_witness :
    ensureProjectDependencyGraphUpToDate c7Proj ⟨[("w", c7Node)], some "5"⟩ =
        (⟨[("w", c7Node)], some "5"⟩ : ModState) ∧
      updateFileReferences c7Proj [("w", c7Node)] "w" = [("w", c7Node)] := by
  constructor
  · exact claim_c7_version_stamp_gating.1 c7Proj ⟨[("w", c7Node)], some "5"⟩ "5" rfl
      (by decide) rfl
  · exact claim_c7_version_stamp_gating.2 c7Proj [("w", c7Node)] "w" c7Node rfl rfl

/-! ## Claim C1: the mutual-edge invariant after deletion -/

/-- File `a.ts` of the deletion scenario (`a` imports `b`). -/
def c1FileA : ScriptInfo := ⟨"a", "a.ts", false, false, "1"⟩

/-- File `b.ts` of the deletion scenario (`b` imports `c`; later deleted). -/
def c1FileB : ScriptInfo := ⟨"b", "b.ts", false, false, "1"⟩

/-- File `c.ts` of the deletion scenario. -/
def c1FileC : ScriptInfo := ⟨"c", "c.ts", false, false, "1"⟩

/-- The project before the deletion: three module files, `a` references
`b`, `b` references `c`. -/
def c1ProjBefore : Project where
  scriptInfos := [c1FileA, c1FileB, c1FileC]
  projectVersion := "1"
  compilerOptions := ⟨none, none, false⟩
  sourceFiles := fun _ => some ⟨false, "m", [], true⟩
  dtsEmitOutput := fun _ => ⟨false, [⟨"o", "t", false⟩]⟩
  fullEmitOutput := fun _ => ⟨false, []⟩
  referencedFiles := fun pa => if pa = "a" then ["b"] else if pa = "b" then ["c"] else []
  allEmittableFiles := ["a.ts", "b.ts", "c.ts"]
  createHash := fun t => "#" ++ t
  getScriptInfoByPath := fun pa => if pa = "a" then c1FileA else if pa = "b" then c1FileB else c1FileC
  projectRootPath := none

/-- The project after `b.ts` was deleted: the file set has shrunk, the
project version stamp moved on, and the contents (and hence content
versions) of `a.ts` and `c.ts` are untouched. -/
def c1ProjAfter : Project where
  scriptInfos := [c1FileA, c1FileC]
  projectVersion := "2"
  compilerOptions := ⟨none, none, false⟩
  sourceFiles := fun _ => some ⟨false, "m", [], true⟩
  dtsEmitOutput := fun _ => ⟨false, [⟨"o", "t", false⟩]⟩
  fullEmitOutput := fun _ => ⟨false, []⟩
  referencedFiles := fun _ => []
  allEmittableFiles := ["a.ts", "c.ts"]
  createHash := fun t => "#" ++ t
  getScriptInfoByPath := fun pa => if pa = "a" then c1FileA else if pa = "b" then c1FileB else c1FileC
  projectRootPath := none

/-- The graph after it is first built on the three-file project. -/
def c1Built : ModState := ensureProjectDependencyGraphUpToDate c1ProjBefore ⟨[], none⟩

/-- The graph after `b.ts` is deleted and `onProjectUpdateGraph` runs. -/
def c1AfterDelete : ModState := moduleOnProjectUpdateGraph c1ProjAfter c1Built

/-- Claim C1, evaluated at the failing input: after the deletion refresh
the deleted node `b` is gone from the table and from `c`'s `referencedBy`,
but it still dangles in the surviving node `a`'s `references` — because
`a.ts`'s content version did not change, `updateFileReferences` skipped
recomputing `a`'s reference list.  The claimed mutual-edge invariant
(`no dangling edges after deletion`) is violated by the code. -/
theorem claim_c1_dangling_edge_after_delete :
    (alookup c1AfterDelete.fileInfos "a").map (fun fi => fi.references) = some [c1FileB] ∧
      alookup c1AfterDelete.fileInfos "b" = none ∧
      (alookup c1AfterDelete.fileInfos "c").map (fun fi => fi.referencedBy) = some [] := by
  decide

/-! ## Claim C2: the bundled-output short-circuit -/

/-- Claim C2 (amended): under `out`/`outFile` (both scheduler kinds) or
`isolatedModules` (dependency-graph scheduler), `getFilesAffectedBy`
returns the trivial single-file result — for the dependency-graph
scheduler provided the changed file itself is module-or-ambient-only
(its node after the graph refresh, if any, passes the
module-or-ambient-only test; the non-module whole-project fallback is
checked before the output-mode short-circuit), and for the flat scheduler
only under `out`/`outFile` (it does not consult `isolatedModules`). -/
theorem claim_c2_bundled_output_short_circuit :
    (∀ (fuel : Nat) (p : Project) (st : ModState) (si : ScriptInfo),
      (p.compilerOptions.isolatedModules = true ∨ jsTruthyStr p.compilerOptions.out = true ∨
        jsTruthyStr p.compilerOptions.outFile = true) →
      (Option.all
        (fun fi => isExternalModuleOrHasOnlyAmbientExternalModules p fi.scriptInfo)
        (alookup (ensureProjectDependencyGraphUpToDate p st).fileInfos si.path) = true) →
      (moduleGetFilesAffectedBy fuel p st si).2 = singleFileResult si) ∧
    (∀ (p : Project) (st : NMState) (si : ScriptInfo),
      (jsTruthyStr p.compilerOptions.out = true ∨ jsTruthyStr p.compilerOptions.outFile = true) →
      (nonModuleGetFilesAffectedBy p st si).2 = singleFileResult si) := by
  constructor
  · intro fuel p st si hopt hmod
    unfold moduleGetFilesAffectedBy
    cases h : alookup (ensureProjectDependencyGraphUpToDate p st).fileInfos si.path with
    | none => simp [h]
    | some fi =>
      rw [h] at hmod
      simp only [Option.all] at hmod
      by_cases hr : (updateShapeSignature p fi.scriptInfo fi.lastCheckedShapeSignature).1 = false
      · simp [h, hr]
      · rcases hopt with ho | ho | ho <;> simp [h, hr, hmod, ho]
  · intro p st si hopt
    unfold nonModuleGetFilesAffectedBy
    by_cases hr : (updateShapeSignature p
        (getOrCreateNMInfo p st.fileInfos si.path).2.scriptInfo
        (getOrCreateNMInfo p st.fileInfos si.path).2.lastCheckedShapeSignature).1 = true
    · rcases hopt with ho | ho <;> simp [hr, ho]
    · simp [hr]

/-- A non-module file (`f.ts`) whose shape is about to change. -/
def c2File : ScriptInfo := ⟨"f", "f.ts", false, false, "1"⟩

/-- A project with bundled output configured (`out` truthy) whose only file
is a plain script (not a module, with one ordinary top-level statement). -/
def c2Proj : Project where
  scriptInfos := [c2File]
  projectVersion := "1"
  compilerOptions := ⟨some "bundle.js", none, false⟩
  sourceFiles := fun _ => some ⟨false, "tf", [⟨false, false⟩], false⟩
  dtsEmitOutput := fun _ => ⟨false, [⟨"o", "d", false⟩]⟩
  fullEmitOutput := fun _ => ⟨false, []⟩
  referencedFiles := fun _ => []
  allEmittableFiles := ["a.ts", "f.ts"]
  createHash := fun t => "#" ++ t
  getScriptInfoByPath := fun _ => c2File
  projectRootPath := none

/-- A graph state already up to date for `c2Proj`, holding the node of
`f.ts` with no cached signature (so its shape reads as changed). -/
def c2St : ModState :=
  { fileInfos := [("f", ⟨c2File, none, [], [], some "1"⟩)],
    projectVersionForDependencyGraph := some "1" }

/-- Claim C2, counterexample: with `out` configured (bundled single
output), the dependency-graph scheduler still returns the full emittable
set — not the trivial single-file result — for a changed file that is not
module-or-ambient-only, because the non-module fallback is checked before
the output-mode short-circuit. -/
theorem claim_c2_counterexample :
    jsTruthyStr c2Proj.compilerOptions.out = true ∧
      (moduleGetFilesAffectedBy 3 c2Proj c2St c2File).2 = ["a.ts", "f.ts"] ∧
      (moduleGetFilesAffectedBy 3 c2Proj c2St c2File).2 ≠ singleFileResult c2File := by
  decide

/-- A module file used to witness the amended claim C2. -/
def c2WFile : ScriptInfo := ⟨"g", "g.ts", false, false, "1"⟩

/-- A project whose files are all external modules, with `isolatedModules`
set and `out` truthy (so both short-circuit conditions are available). -/
def c2WProj : Project where
  scriptInfos := [c2WFile]
  projectVersion := "1"
  compilerOptions := ⟨some "bundle.js", none, true⟩
  sourceFiles := fun _ => some ⟨false, "tg", [], true⟩
  dtsEmitOutput := fun _ => ⟨false, [⟨"o", "d", false⟩]⟩
  fullEmitOutput := fun _ => ⟨false, []⟩
  referencedFiles := fun _ => []
  allEmittableFiles := ["g.ts"]
  createHash := fun t => "#" ++ t
  getScriptInfoByPath := fun _ => c2WFile
  projectRootPath := none

/-- Witness for the amended claim C2 at a concrete project. -/
theorem claim_c2_bundled_output_short_circuit_witness :
    (moduleGetFilesAffectedBy 0 c2WProj ⟨[], none⟩ c2WFile).2 = singleFileResult c2WFile ∧
      (nonModuleGetFilesAffectedBy c2WProj ⟨[]⟩ c2WFile).2 = singleFileResult c2WFile :=
  ⟨claim_c2_bundled_output_short_circuit.1 0 c2WProj ⟨[], none⟩ c2WFile (Or.inl rfl)
      (by decide),
    claim_c2_bundled_output_short_circuit.2 c2WProj ⟨[]⟩ c2WFile (Or.inl rfl)⟩

/-! ## Claim C8: the non-module whole-project fallback -/

/-- Claim C8: a file whose representation has at least one top-level
statement that is not a string-named ambient module declaration, and that
is not an external module, triggers the whole-project fallback of the
dependency-graph scheduler when its shape changes; and a file whose every
top-level statement is a string-named ambient module declaration always
passes the module-or-ambient-only test, so it never reaches that
fallback. -/
theorem claim_c8_non_module_fallback :
    (∀ (fuel : Nat) (p : Project) (st : ModState) (si : ScriptInfo) (fi : MBInfo)
        (sf : SourceFile),
      alookup (ensureProjectDependencyGraphUpToDate p st).fileInfos si.path = some fi →
      p.sourceFiles fi.scriptInfo.path = some sf →
      sf.isExternalModule = false →
      (∃ stm ∈ sf.statements, (stm.isModuleDeclaration && stm.nameIsStringLiteral) = false) →
      (updateShapeSignature p fi.scriptInfo fi.lastCheckedShapeSignature).1 = true →
      (moduleGetFilesAffectedBy fuel p st si).2 = p.allEmittableFiles) ∧
    (∀ (p : Project) (si : ScriptInfo) (sf : SourceFile),
      p.sourceFiles si.path = some sf → containsOnlyAmbientModules sf = true →
      isExternalModuleOrHasOnlyAmbientExternalModules p si = true) := by
  constructor
  · intro fuel p st si fi sf hfi hsf hext hbad hchg
    have hamb : containsOnlyAmbientModules sf = false := by
      rcases hbad with ⟨stm, hmem, hstm⟩
      unfold containsOnlyAmbientModules
      rw [List.all_eq_false]
      exact ⟨stm, hmem, by simp [hstm]⟩
    have hmod : isExternalModuleOrHasOnlyAmbientExternalModules p fi.scriptInfo = false := by
      unfold isExternalModuleOrHasOnlyAmbientExternalModules
      simp [hsf, hext, hamb]
    unfold moduleGetFilesAffectedBy
    simp [hfi, hchg, hmod]
  · intro p si sf hsf hamb
    unfold isExternalModuleOrHasOnlyAmbientExternalModules
    simp [hsf, hamb]

/-- The plain-script file used to witness claim C8. -/
def c8File : ScriptInfo := ⟨"s", "s.ts", false, false, "1"⟩

/-- A project whose only file is a plain script with one ordinary
statement; its node is already in the graph with no cached signature. -/
def c8Proj : Project where
  scriptInfos := [c8File]
  projectVersion := "1"
  compilerOptions := ⟨none, none, false⟩
  sourceFiles := fun pa =>
    if pa = "s" then some ⟨false, "ts", [⟨false, false⟩], false⟩
    else some ⟨false, "amb", [⟨true, true⟩], false⟩
  dtsEmitOutput := fun _ => ⟨false, [⟨"o", "d", false⟩]⟩
  fullEmitOutput := fun _ => ⟨false, []⟩
  referencedFiles := fun _ => []
  allEmittableFiles := ["s.ts"]
  createHash := fun t => "#" ++ t
  getScriptInfoByPath := fun _ => c8File
  projectRootPath := none

/-- An up-to-date graph state for `c8Proj`. -/
def c8St : ModState :=
  { fileInfos := [("s", ⟨c8File, none, [], [], some "1"⟩)],
    projectVersionForDependencyGraph := some "1" }

/-- Witness for claim C8: the concrete plain script triggers the fallback,
and a concrete all-ambient file passes the module-or-ambient-only test. -/
theorem claim_c8_non_module_fallback_witness :
    (moduleGetFilesAffectedBy 0 c8Proj c8St c8File).2 = c8Proj.allEmittableFiles ∧
      isExternalModuleOrHasOnlyAmbientExternalModules c8Proj ⟨"amb", "amb.ts", false, false, "1"⟩ =
        true :=
  ⟨claim_c8_non_module_fallback.1 0 c8Proj c8St c8File ⟨c8File, none, [], [], some "1"⟩
      ⟨false, "ts", [⟨false, false⟩], false⟩ (by decide) (by decide) rfl
      ⟨⟨false, false⟩, by decide, rfl⟩ (by decide),
    claim_c8_non_module_fallback.2 c8Proj ⟨"amb", "amb.ts", false, false, "1"⟩
      ⟨false, "amb", [⟨true, true⟩], false⟩ (by decide) (by decide)⟩

/-! ## Claim C9: an empty file is ambient-only -/

/-- Claim C9: a representation with zero top-level statements makes the
all-statements check vacuously true, so the file counts as
module-or-ambient-only (and therefore never reaches the whole-project
fallback) even when it is not an external module. -/
theorem claim_c9_empty_file_ambient_only :
    ∀ (p : Project) (si : ScriptInfo) (sf : SourceFile),
      p.sourceFiles si.path = some sf → sf.statements = [] →
      containsOnlyAmbientModules sf = true ∧
        isExternalModuleOrHasOnlyAmbientExternalModules p si = true := by
  intro p si sf hsf hempty
  have hamb : containsOnlyAmbientModules sf = true := by
    unfold containsOnlyAmbientModules
    rw [hempty]
    rfl
  refine ⟨hamb, ?_⟩
  unfold isExternalModuleOrHasOnlyAmbientExternalModules
  simp [hsf, hamb]

/-- An empty non-module file used to witness claim C9. -/
def c9Proj : Project where
  scriptInfos := [⟨"e", "e.ts", false, false, "1"⟩]
  projectVersion := "1"
  compilerOptions := ⟨none, none, false⟩
  sourceFiles := fun _ => some ⟨false, "", [], false⟩
  dtsEmitOutput := fun _ => ⟨false, []⟩
  fullEmitOutput := fun _ => ⟨false, []⟩
  referencedFiles := fun _ => []
  allEmittableFiles := ["e.ts"]
  createHash := fun t => t
  getScriptInfoByPath := fun _ => ⟨"e", "e.ts", false, false, "1"⟩
  projectRootPath := none

/-- Witness for claim C9 at a concrete empty non-module file. -/
theorem claim_c9_empty_file_ambient_only_witness :
    containsOnlyAmbientModules ⟨false, "", [], false⟩ = true ∧
      isExternalModuleOrHasOnlyAmbientExternalModules c9Proj ⟨"e", "e.ts", false, false, "1"⟩ =
        true :=
  claim_c9_empty_file_ambient_only c9Proj ⟨"e", "e.ts", false, false, "1"⟩ ⟨false, "", [], false⟩
    rfl rfl

/-! ## Claim C10: `emitFile` with no tracker -/

/-- Claim C10 (amended): when no tracker exists after the in-project check,
`emitFile` returns `false` and performs no `writeFile` call; the flat
scheduler's cached state is left entirely unchanged when the file is not
contained in the project, while the dependency-graph scheduler's in-project
check is the graph refresh itself, so its cached state is the refreshed
one. -/
theorem claim_c10_emit_file_missing_tracker :
    (∀ (p : Project) (st : NMState) (si : ScriptInfo),
      containsScriptInfo p si = false → alookup st.fileInfos si.path = none →
      nonModuleEmitFile p st si = (st, false, [])) ∧
    (∀ (p : Project) (st : ModState) (si : ScriptInfo),
      alookup (ensureProjectDependencyGraphUpToDate p st).fileInfos si.path = none →
      moduleEmitFile p st si = (ensureProjectDependencyGraphUpToDate p st, false, [])) := by
  constructor
  · intro p st si hcont hlook
    unfold nonModuleEmitFile
    simp [hcont, hlook]
  · intro p st si hlook
    unfold moduleEmitFile
    simp [hlook]

/-- A file outside the witness project. -/
def c10Foreign : ScriptInfo := ⟨"out", "out.ts", false, false, "1"⟩

/-- The single file of the witness project. -/
def c10Member : ScriptInfo := ⟨"in", "in.ts", false, false, "1"⟩

/-- A one-file project used for claim C10; the builder has never seen the
project (no cached version stamp), so the module scheduler's in-project
check rebuilds the graph. -/
def c10Proj : Project where
  scriptInfos := [c10Member]
  projectVersion := "1"
  compilerOptions := ⟨none, none, false⟩
  sourceFiles := fun _ => some ⟨false, "m", [], true⟩
  dtsEmitOutput := fun _ => ⟨false, [⟨"o", "t", false⟩]⟩
  fullEmitOutput := fun _ => ⟨false, [⟨"out.js", "code", false⟩]⟩
  referencedFiles := fun _ => []
  allEmittableFiles := ["in.ts"]
  createHash := fun t => "#" ++ t
  getScriptInfoByPath := fun _ => c10Member
  projectRootPath := none

/-- Claim C10, counterexample: asking the dependency-graph scheduler to
emit a file that is not in the project returns `false` with no write, but
the cached state does *not* stay unchanged — the in-project check runs the
graph refresh, which creates nodes for the project's files and records the
version stamp. -/
theorem claim_c10_counterexample :
    (moduleEmitFile c10Proj ⟨[], none⟩ c10Foreign).2.1 = false ∧
      (moduleEmitFile c10Proj ⟨[], none⟩ c10Foreign).2.2 = [] ∧
      (moduleEmitFile c10Proj ⟨[], none⟩ c10Foreign).1 ≠ (⟨[], none⟩ : ModState) := by
  decide

/-- Witness for the amended claim C10 at concrete inputs. -/
theorem claim_c10_emit_file_missing_tracker_witness :
    nonModuleEmitFile c10Proj ⟨[]⟩ c10Foreign = (⟨[]⟩, false, []) ∧
      moduleEmitFile c10Proj ⟨[], none⟩ c10Foreign =
        (ensureProjectDependencyGraphUpToDate c10Proj ⟨[], none⟩, false, []) :=
  ⟨claim_c10_emit_file_missing_tracker.1 c10Proj ⟨[]⟩ c10Foreign (by decide) rfl,
    claim_c10_emit_file_missing_tracker.2 c10Proj ⟨[], none⟩ c10Foreign (by decide)⟩

/-! ## Claim C5: idempotence of `getFilesAffectedBy` -/

/-- The module file `x.ts` whose dts emit produces no artifact, so its
shape delta is never consumed. -/
def c5FileX : ScriptInfo := ⟨"x", "x.ts", false, false, "1"⟩

/-- The declaration file `y.ts` that depends on `x.ts`. -/
def c5FileY : ScriptInfo := ⟨"y", "y.ts", false, false, "1"⟩

/-- The project for the claim C5 counterexample: `x.ts` is an external
module whose declarations-only emit yields no output file, and `y.ts`
references it. -/
def c5Proj : Project where
  scriptInfos := [c5FileX, c5FileY]
  projectVersion := "1"
  compilerOptions := ⟨none, none, false⟩
  sourceFiles := fun pa =>
    if pa = "x" then some ⟨false, "tx", [], true⟩ else some ⟨true, "ty", [], true⟩
  dtsEmitOutput := fun _ => ⟨false, []⟩
  fullEmitOutput := fun _ => ⟨false, []⟩
  referencedFiles := fun pa => if pa = "y" then ["x"] else []
  allEmittableFiles := ["x.ts", "y.ts"]
  createHash := fun t => "#" ++ t
  getScriptInfoByPath := fun pa => if pa = "x" then c5FileX else c5FileY
  projectRootPath := none

/-- The up-to-date graph for `c5Proj`: `y` references `x`. -/
def c5St : ModState :=
  { fileInfos := [("x", ⟨c5FileX, none, [], [c5FileY], some "1"⟩),
                  ("y", ⟨c5FileY, none, [c5FileX], [], some "1"⟩)],
    projectVersionForDependencyGraph := some "1" }

/-- Claim C5, counterexample: with no intervening edits, the second call of
`getFilesAffectedBy(x.ts)` again returns `{x.ts, y.ts}` — neither the empty
list nor the trivial single-file result — because the first call stored no
signature for `x.ts` (its dts emit is empty), so the shape delta was never
consumed. -/
theorem claim_c5_counterexample :
    (moduleGetFilesAffectedBy 5 c5Proj
        (moduleGetFilesAffectedBy 5 c5Proj c5St c5FileX).1 c5FileX).2 = ["x.ts", "y.ts"] ∧
      (["x.ts", "y.ts"] : List String) ≠ [] ∧
      (["x.ts", "y.ts"] : List String) ≠ singleFileResult c5FileX := by
  decide

/-! ## Lemmas about the association-list tables -/

theorem alookup_mem {α : Type} {m : List (String × α)} {k : String} {v : α}
    (h : alookup m k = some v) : (k, v) ∈ m := by
  induction m with
  | nil => simp [alookup] at h
  | cons kv rest ih =>
    obtain ⟨k', v'⟩ := kv
    by_cases hk : k' = k
    · subst hk
      simp [alookup] at h
      simp [h]
    · simp [alookup, hk] at h
      exact List.mem_cons_of_mem _ (ih h)

theorem alookup_eq_none_iff {α : Type} {m : List (String × α)} {k : String} :
    alookup m k = none ↔ ∀ kv ∈ m, kv.1 ≠ k := by
  induction m with
  | nil => simp [alookup]
  | cons kv rest ih =>
    obtain ⟨k', v'⟩ := kv
    by_cases hk : k' = k
    · subst hk
      simp [alookup]
    · simp [alookup, hk, ih]

theorem mapUpdate_of_lookup_none {α : Type} {m : List (String × α)} {k : String} (v : α)
    (h : alookup m k = none) : mapUpdate m k v = m := by
  rw [alookup_eq_none_iff] at h
  induction m with
  | nil => rfl
  | cons kv rest ih =>
    have hk : kv.1 ≠ k := h kv (List.mem_cons_self _ _)
    unfold mapUpdate
    simp only [List.map_cons, if_neg hk]
    have := ih (fun kv' hkv' => h kv' (List.mem_cons_of_mem _ hkv'))
    unfold mapUpdate at this
    rw [this]

theorem mapUpdate_cons {α : Type} (k' : String) (v' : α) (rest : List (String × α))
    (k : String) (v : α) :
    mapUpdate ((k', v') :: rest) k v =
      (if k' = k then (k, v) else (k', v')) :: mapUpdate rest k v := by
  simp [mapUpdate]

theorem alookup_mapUpdate_self {α : Type} {m : List (String × α)} {k : String} {w : α} (v : α)
    (h : alookup m k = some w) : alookup (mapUpdate m k v) k = some v := by
  induction m with
  | nil => simp [alookup] at h
  | cons kv rest ih =>
    obtain ⟨k', v'⟩ := kv
    rw [mapUpdate_cons]
    by_cases hk : k' = k
    · rw [if_pos hk]
      simp [alookup]
    · rw [if_neg hk]
      have h' : alookup rest k = some w := by simpa [alookup, hk] using h
      simpa [alookup, hk] using ih h'

theorem alookup_mapUpdate_ne {α : Type} {m : List (String × α)} {k j : String} (v : α)
    (h : j ≠ k) : alookup (mapUpdate m k v) j = alookup m j := by
  induction m with
  | nil => rfl
  | cons kv rest ih =>
    obtain ⟨k', v'⟩ := kv
    rw [mapUpdate_cons]
    by_cases hk : k' = k
    · rw [if_pos hk]
      subst hk
      simp [alookup, Ne.symm h, fun he : k' = j => h he.symm]
      exact ih
    · rw [if_neg hk]
      by_cases hj : k' = j
      · subst hj
        simp [alookup]
      · simp [alookup, hj]
        exact ih

theorem mapUpdate_keys {α : Type} (m : List (String × α)) (k : String) (v : α) :
    (mapUpdate m k v).map Prod.fst = m.map Prod.fst := by
  induction m with
  | nil => rfl
  | cons kv rest ih =>
    obtain ⟨k', v'⟩ := kv
    by_cases hk : k' = k
    · subst hk
      simp [mapUpdate] at ih ⊢
      exact ih
    · simp [mapUpdate, hk] at ih ⊢
      exact ih

theorem mem_mapUpdate {α : Type} {m : List (String × α)} {k : String} {v : α}
    {kv' : String × α} (h : kv' ∈ mapUpdate m k v) : kv' ∈ m ∨ kv' = (k, v) := by
  unfold mapUpdate at h
  rcases List.mem_map.1 h with ⟨kv0, hkv0, heq⟩
  by_cases hk : kv0.1 = k
  · right
    simp [hk] at heq
    exact heq.symm
  · left
    simp [hk] at heq
    exact heq ▸ hkv0

theorem mem_mapSet {α : Type} {m : List (String × α)} {k : String} {v : α}
    {kv' : String × α} (h : kv' ∈ mapSet m k v) : kv' ∈ m ∨ kv' = (k, v) := by
  unfold mapSet at h
  by_cases hc : m.any (fun kv => kv.1 == k)
  · rw [if_pos hc] at h
    exact mem_mapUpdate h
  · rw [if_neg hc] at h
    rcases List.mem_append.1 h with h | h
    · exact Or.inl h
    · simp at h
      exact Or.inr h

theorem alookup_mapSet_self {α : Type} (m : List (String × α)) (k : String) (v : α) :
    alookup (mapSet m k v) k = some v := by
  unfold mapSet
  by_cases hc : m.any (fun kv => kv.1 == k)
  · rw [if_pos hc]
    simp only [List.any_eq_true, beq_iff_eq] at hc
    obtain ⟨kv, hkv, hk⟩ := hc
    cases hw : alookup m k with
    | none =>
      rw [alookup_eq_none_iff] at hw
      exact absurd hk (hw kv hkv)
    | some w => exact alookup_mapUpdate_self v hw
  · rw [if_neg hc]
    have hnone : alookup m k = none := by
      rw [alookup_eq_none_iff]
      intro kv hkv he
      exact hc (List.any_eq_true.2 ⟨kv, hkv, by simp [he]⟩)
    induction m with
    | nil => simp [alookup]
    | cons kv rest ih =>
      have hk : kv.1 ≠ k := by
        rw [alookup_eq_none_iff] at hnone
        exact hnone kv (List.mem_cons_self _ _)
      obtain ⟨k', v'⟩ := kv
      simp only [List.cons_append, alookup, if_neg hk]
      apply ih
      · intro hany
        exact hc (by simpa using Or.inr (List.any_eq_true.1 hany))
      · rw [alookup_eq_none_iff] at hnone ⊢
        exact fun kv' hkv' => hnone kv' (List.mem_cons_of_mem _ hkv')

/-! ## Lemmas about the visited set and the work queue -/

theorem visitedHas_of_mem {v : List (String × ScriptInfo)} {kv : String × ScriptInfo}
    (h : kv ∈ v) : visitedHas v kv.1 = true := by
  unfold visitedHas
  exact List.any_eq_true.2 ⟨kv, h, by simp⟩

theorem exists_of_visitedHas {v : List (String × ScriptInfo)} {x : String}
    (h : visitedHas v x = true) : ∃ s, (x, s) ∈ v := by
  unfold visitedHas at h
  rcases List.any_eq_true.1 h with ⟨kv, hkv, he⟩
  simp only [beq_iff_eq] at he
  exact ⟨kv.2, by rwa [← he, Prod.mk.eta]⟩

theorem visitedHas_eq_keys (v : List (String × ScriptInfo)) (x : String) :
    visitedHas v x = (v.map Prod.fst).any (fun k => k == x) := by
  induction v with
  | nil => rfl
  | cons kv rest ih =>
    show (kv.1 == x || visitedHas rest x) = (kv.1 == x || (rest.map Prod.fst).any (fun k => k == x))
    rw [ih]

theorem visitedHas_mapUpdate (v : List (String × ScriptInfo)) (n : String) (s : ScriptInfo)
    (x : String) : visitedHas (mapUpdate v n s) x = visitedHas v x := by
  rw [visitedHas_eq_keys, visitedHas_eq_keys, mapUpdate_keys]

theorem visitedHas_visitedSet (v : List (String × ScriptInfo)) (n : String) (s : ScriptInfo)
    (x : String) :
    visitedHas (visitedSet v n s) x = (visitedHas v x || (x == n)) := by
  unfold visitedSet mapSet
  by_cases hc : v.any (fun kv => kv.1 == n)
  · rw [if_pos hc, visitedHas_mapUpdate]
    by_cases hx : x = n
    · subst hx
      have hvx : visitedHas v x = true := hc
      simp [hvx]
    · simp [hx]
  · rw [if_neg hc]
    unfold visitedHas
    rw [List.any_append]
    by_cases hx : x = n
    · subst hx
      simp
    · have h1 : (n == x) = false := by simp [Ne.symm hx]
      have h2 : (x == n) = false := by simp [hx]
      show ((v.any fun kv => kv.1 == x) || ((n == x) || false)) =
        ((v.any fun kv => kv.1 == x) || (x == n))
      rw [h1, h2]
      simp

theorem mem_visitedSet {v : List (String × ScriptInfo)} {n : String} {s : ScriptInfo}
    {kv : String × ScriptInfo} (h : kv ∈ visitedSet v n s) : kv ∈ v ∨ kv = (n, s) :=
  mem_mapSet h

theorem visitedSet_of_has {v : List (String × ScriptInfo)} {n : String} (s : ScriptInfo)
    (h : visitedHas v n = true) (x : String) :
    visitedHas (visitedSet v n s) x = visitedHas v x := by
  rw [visitedHas_visitedSet]
  by_cases hx : x = n
  · subst hx
    simp [h]
  · simp [hx]

theorem pushFoldl_eq (g : ScriptInfo → Bool) :
    ∀ (l acc : List ScriptInfo),
      l.foldl (fun acc q => if g q then acc else q :: acc) acc =
        (l.filter (fun q => !g q)).reverse ++ acc := by
  intro l
  induction l with
  | nil => intro acc; simp
  | cons q ls ih =>
    intro acc
    by_cases hg : g q = true
    · simp only [List.foldl_cons]
      rw [if_pos hg, ih acc, List.filter_cons]
      simp [hg]
    · have hg2 : g q = false := Bool.not_eq_true _ ▸ (by simpa using hg)
      simp only [List.foldl_cons]
      rw [if_neg hg, ih (q :: acc), List.filter_cons]
      simp [hg2]

theorem walkRun_queue_nil {p : Project} {ws : WalkState} (h : ws.queue = []) (n : Nat) :
    walkRun p n ws = ws := by
  cases n with
  | zero => rfl
  | succ n =>
    unfold walkRun
    rw [h]

theorem walkRun_succ_cons {p : Project} {ws : WalkState} {e : ScriptInfo}
    {rest : List ScriptInfo} (h : ws.queue = e :: rest) (n : Nat) :
    walkRun p (n + 1) ws = walkRun p n (walkStep p ws) := by
  conv_lhs => rw [walkRun, h]

/-! ## Well-formedness of walk states

In the source, the queue and the edge lists hold live object references
into the node table; in the path-keyed embedding this is captured by a
well-formedness predicate: every node is stored under its own path, keys
are unique, file names identify nodes uniquely (marking is by file name),
and every reverse-dependency edge and queue entry denotes a live node whose
stored identity matches the entry. -/

def mapWF (m : FInfoMap) : Prop :=
  (∀ kv ∈ m, kv.2.scriptInfo.path = kv.1) ∧
  (m.map Prod.fst).Nodup ∧
  (∀ kv1 ∈ m, ∀ kv2 ∈ m, kv1.2.scriptInfo.fileName = kv2.2.scriptInfo.fileName →
    kv1.1 = kv2.1) ∧
  (∀ kv ∈ m, ∀ q ∈ kv.2.referencedBy,
    (alookup m q.path).map (fun fj => fj.scriptInfo) = some q)

def walkWF (ws : WalkState) : Prop :=
  mapWF ws.m ∧
  (∀ e ∈ ws.queue, (alookup ws.m e.path).map (fun fj => fj.scriptInfo) = some e) ∧
  (∀ kv ∈ ws.visited, kv.2.fileName = kv.1)

instance decidableMapWF (m : FInfoMap) : Decidable (mapWF m) := by
  unfold mapWF
  infer_instance

instance decidableWalkWF (ws : WalkState) : Decidable (walkWF ws) := by
  unfold walkWF
  infer_instance

/-- Updating only the stored signature of the node at `k` does not change
which script info any lookup sees. -/
theorem alookup_scriptInfo_update_sig {m : FInfoMap} {k : String} {fi : MBInfo}
    (s : Option String) (hfi : alookup m k = some fi) (j : String) :
    (alookup (mapUpdate m k { fi with lastCheckedShapeSignature := s }) j).map
        (fun f => f.scriptInfo) =
      (alookup m j).map (fun f => f.scriptInfo) := by
  by_cases hj : j = k
  · subst hj
    rw [alookup_mapUpdate_self _ hfi, hfi]
    rfl
  · rw [alookup_mapUpdate_ne _ hj]

/-- Every entry of a signature-only update corresponds to an entry of the
original table with the same key, script info and edges. -/
theorem mem_update_sig_entries {m : FInfoMap} {k : String} {fi : MBInfo}
    (s : Option String) (hfi : alookup m k = some fi) :
    ∀ kv ∈ mapUpdate m k { fi with lastCheckedShapeSignature := s },
      ∃ kv0 ∈ m, kv.1 = kv0.1 ∧ kv.2.scriptInfo = kv0.2.scriptInfo ∧
        kv.2.referencedBy = kv0.2.referencedBy := by
  intro kv hkv
  rcases mem_mapUpdate hkv with hkv | hkv
  · exact ⟨kv, hkv, rfl, rfl, rfl⟩
  · exact ⟨(k, fi), alookup_mem hfi, by rw [hkv], by rw [hkv], by rw [hkv]⟩

/-- One walk step preserves well-formedness. -/
theorem walkWF_step (p : Project) (ws : WalkState) (h : walkWF ws) : walkWF (walkStep p ws) := by
  obtain ⟨⟨hpath, hnodup, hinj, hedge⟩, hqueue, hvis⟩ := h
  unfold walkStep
  split
  · exact ⟨⟨hpath, hnodup, hinj, hedge⟩, hqueue, hvis⟩
  · rename_i e rest hq
    split
    · refine ⟨⟨hpath, hnodup, hinj, hedge⟩, ?_, hvis⟩
      intro e' he'
      exact hqueue e' (by rw [hq]; exact List.mem_cons_of_mem _ he')
    · rename_i fi hfi
      dsimp only
      have hmem : (e.path, fi) ∈ ws.m := alookup_mem hfi
      have htrans := mem_update_sig_entries
        (updateShapeSignature p fi.scriptInfo fi.lastCheckedShapeSignature).2 hfi
      refine ⟨⟨?_, ?_, ?_, ?_⟩, ?_, ?_⟩
      · intro kv hkv
        rcases mem_mapUpdate hkv with hkv | hkv
        · exact hpath kv hkv
        · rw [hkv]
          exact hpath (e.path, fi) hmem
      · rw [mapUpdate_keys]
        exact hnodup
      · intro kv1 h1 kv2 h2 hname
        obtain ⟨kv01, h01, hk1, hs1, _⟩ := htrans kv1 h1
        obtain ⟨kv02, h02, hk2, hs2, _⟩ := htrans kv2 h2
        rw [hs1, hs2] at hname
        rw [hk1, hk2]
        exact hinj kv01 h01 kv02 h02 hname
      · intro kv hkv q hqmem
        obtain ⟨kv0, h0, _, _, hrb⟩ := htrans kv hkv
        rw [alookup_scriptInfo_update_sig _ hfi]
        exact hedge kv0 h0 q (hrb ▸ hqmem)
      · intro e' he'
        rw [alookup_scriptInfo_update_sig _ hfi]
        by_cases hcond : ((updateShapeSignature p fi.scriptInfo fi.lastCheckedShapeSignature).1
            && !fi.referencedBy.isEmpty) = true
        · rw [if_pos hcond] at he'
          rw [pushFoldl_eq (fun q => visitedHas ws.visited q.fileName) fi.referencedBy rest]
            at he'
          rcases List.mem_append.1 he' with he' | he'
          · have := List.mem_filter.1 (List.mem_reverse.1 he')
            exact hedge (e.path, fi) hmem e' this.1
          · exact hqueue e' (by rw [hq]; exact List.mem_cons_of_mem _ he')
        · rw [if_neg hcond] at he'
          exact hqueue e' (by rw [hq]; exact List.mem_cons_of_mem _ he')
      · intro kv hkv
        rcases mem_visitedSet hkv with hkv | hkv
        · exact hvis kv hkv
        · rw [hkv]

/-! ## Termination of the propagation walk -/

/-- Characterisation of one walk step on a non-empty queue whose head is a
live node. -/
theorem walkStep_eq_some (p : Project) (ws : WalkState) (e : ScriptInfo)
    (rest : List ScriptInfo) (fi : MBInfo) (hq : ws.queue = e :: rest)
    (hfi : alookup ws.m e.path = some fi) :
    walkStep p ws =
      { m := mapUpdate ws.m e.path
          { fi with lastCheckedShapeSignature :=
              (updateShapeSignature p fi.scriptInfo fi.lastCheckedShapeSignature).2 },
        queue :=
          if ((updateShapeSignature p fi.scriptInfo fi.lastCheckedShapeSignature).1
              && !fi.referencedBy.isEmpty) = true then
            fi.referencedBy.foldl
              (fun acc q => if visitedHas ws.visited q.fileName then acc else q :: acc) rest
          else rest,
        visited := visitedSet ws.visited fi.scriptInfo.fileName fi.scriptInfo } := by
  unfold walkStep
  split
  · rename_i heq
    rw [hq] at heq
    simp at heq
  · rename_i e' rest' heq
    rw [hq] at heq
    rw [List.cons.injEq] at heq
    obtain ⟨he, hr⟩ := heq
    subst he
    subst hr
    split
    · rename_i hfi2
      rw [hfi] at hfi2
      simp at hfi2
    · rename_i fi2 hfi2
      rw [hfi] at hfi2
      rw [Option.some.injEq] at hfi2
      subst hfi2
      rfl

/-- In a table with unique keys, a member under a key is the value the
lookup finds. -/
theorem lookup_unique {α : Type} {m : List (String × α)} (hnd : (m.map Prod.fst).Nodup)
    {k : String} {v w : α} (hmem : (k, v) ∈ m) (hl : alookup m k = some w) : v = w := by
  induction m with
  | nil => cases hmem
  | cons kv rest ih =>
    obtain ⟨k', v'⟩ := kv
    rw [List.map_cons, List.nodup_cons] at hnd
    rcases List.mem_cons.1 hmem with hmem | hmem
    · rw [Prod.mk.injEq] at hmem
      obtain ⟨hk, hv⟩ := hmem
      subst hk
      subst hv
      simp [alookup] at hl
      exact hl
    · by_cases hk : k' = k
      · subst hk
        exact absurd (List.mem_map.2 ⟨(k', v), hmem, rfl⟩) hnd.1
      · simp only [alookup, if_neg hk] at hl
        exact ih hnd.2 hmem hl

/-- Counting a strictly smaller predicate: if `q` implies `pr` on the list
and some member satisfies `pr` but not `q`, the `q`-count is strictly
below the `pr`-count. -/
theorem countP_lt_of_witness {α : Type} (l : List α) (pr q : α → Bool)
    (himp : ∀ y ∈ l, q y = true → pr y = true) {x : α} (hx : x ∈ l)
    (hpx : pr x = true) (hqx : q x = false) : l.countP q < l.countP pr := by
  induction l with
  | nil => cases hx
  | cons hd tl ih =>
    rw [List.countP_cons, List.countP_cons]
    rcases List.mem_cons.1 hx with hx | hx
    · subst hx
      have hle : tl.countP q ≤ tl.countP pr :=
        List.countP_mono_left (fun y hy => himp y (List.mem_cons_of_mem _ hy))
      rw [hpx, hqx]
      simp only [Bool.false_eq_true, if_false, if_true]
      omega
    · have hlt : tl.countP q < tl.countP pr :=
        ih (fun y hy => himp y (List.mem_cons_of_mem _ hy)) hx
      have hhd := himp hd (List.mem_cons_self _ _)
      by_cases hqh : q hd = true
      · rw [hqh, hhd hqh]
        omega
      · have hqh' : q hd = false := by simpa using hqh
        rw [hqh']
        cases hph : pr hd <;> simp <;> omega

/-- Nodes of the table not yet in the visited set. -/
def unmarkedCount (ws : WalkState) : Nat :=
  ws.m.countP fun kv => !visitedHas ws.visited kv.2.scriptInfo.fileName

/-- Queue entries whose file name is already in the visited set. -/
def markedQueueCount (ws : WalkState) : Nat :=
  ws.queue.countP fun e => visitedHas ws.visited e.fileName

/-- The script info seen through a signature-only table update is the
original one, entry by entry. -/
theorem countP_update_sig (m : FInfoMap) (hnd : (m.map Prod.fst).Nodup) (k : String)
    (fi : MBInfo) (hfi : alookup m k = some fi) (s : Option String) (pr : ScriptInfo → Bool) :
    (mapUpdate m k { fi with lastCheckedShapeSignature := s }).countP
        (fun kv => pr kv.2.scriptInfo) =
      m.countP (fun kv => pr kv.2.scriptInfo) := by
  unfold mapUpdate
  rw [List.countP_map]
  apply List.countP_congr
  intro kv hkv
  by_cases hk : kv.1 = k
  · have : kv.2 = fi := lookup_unique hnd (by rw [← hk]; exact hkv) hfi
    simp [Function.comp, hk, this]
  · simp [Function.comp, hk]

/-- Popping a not-yet-visited node strictly decreases the number of
unvisited table nodes. -/
theorem unmarkedCount_lt_of_unmarked_pop (p : Project) (ws : WalkState) (e : ScriptInfo)
    (rest : List ScriptInfo) (fi : MBInfo) (hwf : walkWF ws) (hq : ws.queue = e :: rest)
    (hfi : alookup ws.m e.path = some fi)
    (hm : visitedHas ws.visited fi.scriptInfo.fileName = false) :
    unmarkedCount (walkStep p ws) < unmarkedCount ws := by
  obtain ⟨⟨hpath, hnodup, hinj, hedge⟩, hqueue, hvis⟩ := hwf
  rw [walkStep_eq_some p ws e rest fi hq hfi]
  unfold unmarkedCount
  dsimp only
  unfold mapUpdate
  rw [List.countP_map]
  have hval : ∀ kv ∈ ws.m,
      ((if kv.1 = e.path then (e.path,
          { fi with lastCheckedShapeSignature :=
              (updateShapeSignature p fi.scriptInfo fi.lastCheckedShapeSignature).2 })
        else kv)).2.scriptInfo = kv.2.scriptInfo := by
    intro kv hkv
    by_cases hk : kv.1 = e.path
    · have hv : kv.2 = fi := by
        apply lookup_unique hnodup _ hfi
        rw [← hk]
        exact (Prod.mk.eta (p := kv)) ▸ hkv
      rw [if_pos hk, hv]
    · rw [if_neg hk]
  apply countP_lt_of_witness ws.m
    (fun kv => !visitedHas ws.visited kv.2.scriptInfo.fileName) _ ?_ (alookup_mem hfi) ?_ ?_
  · intro y hy hqy
    simp only [Function.comp] at hqy
    rw [hval y hy] at hqy
    rw [visitedHas_visitedSet] at hqy
    simp only [Bool.not_eq_true', Bool.or_eq_false_iff] at hqy
    simp [hqy.1]
  · simp [hm]
  · simp [Function.comp, visitedHas_visitedSet]

/-- Popping an already-visited node leaves the number of unvisited table
nodes unchanged. -/
theorem unmarkedCount_eq_of_marked_pop (p : Project) (ws : WalkState) (e : ScriptInfo)
    (rest : List ScriptInfo) (fi : MBInfo) (hwf : walkWF ws) (hq : ws.queue = e :: rest)
    (hfi : alookup ws.m e.path = some fi)
    (hm : visitedHas ws.visited fi.scriptInfo.fileName = true) :
    unmarkedCount (walkStep p ws) = unmarkedCount ws := by
  obtain ⟨⟨hpath, hnodup, hinj, hedge⟩, hqueue, hvis⟩ := hwf
  rw [walkStep_eq_some p ws e rest fi hq hfi]
  unfold unmarkedCount
  dsimp only
  unfold mapUpdate
  rw [List.countP_map]
  apply List.countP_congr
  intro kv hkv
  simp only [Function.comp]
  have hval : ((if kv.1 = e.path then (e.path,
      { fi with lastCheckedShapeSignature :=
          (updateShapeSignature p fi.scriptInfo fi.lastCheckedShapeSignature).2 })
    else kv)).2.scriptInfo = kv.2.scriptInfo := by
    by_cases hk : kv.1 = e.path
    · have hv : kv.2 = fi := by
        apply lookup_unique hnodup _ hfi
        rw [← hk]
        exact (Prod.mk.eta (p := kv)) ▸ hkv
      rw [if_pos hk, hv]
    · rw [if_neg hk]
  rw [hval, visitedSet_of_has _ hm]

/-- Popping an already-visited node strictly decreases the number of
visited entries in the queue. -/
theorem markedQueueCount_lt_of_marked_pop (p : Project) (ws : WalkState) (e : ScriptInfo)
    (rest : List ScriptInfo) (fi : MBInfo) (hwf : walkWF ws) (hq : ws.queue = e :: rest)
    (hfi : alookup ws.m e.path = some fi)
    (hm : visitedHas ws.visited fi.scriptInfo.fileName = true) :
    markedQueueCount (walkStep p ws) < markedQueueCount ws := by
  obtain ⟨⟨hpath, hnodup, hinj, hedge⟩, hqueue, hvis⟩ := hwf
  have hqe := hqueue e (by rw [hq]; exact List.mem_cons_self _ _)
  rw [hfi] at hqe
  have hfiSI : fi.scriptInfo = e := by simpa using hqe
  have hpe : visitedHas ws.visited e.fileName = true := by rw [← hfiSI]; exact hm
  rw [walkStep_eq_some p ws e rest fi hq hfi]
  unfold markedQueueCount
  dsimp only
  rw [hq, List.countP_cons]
  have hVsame : (fun e' : ScriptInfo =>
      visitedHas (visitedSet ws.visited fi.scriptInfo.fileName fi.scriptInfo) e'.fileName) =
      (fun e' : ScriptInfo => visitedHas ws.visited e'.fileName) :=
    funext fun e' => visitedSet_of_has _ hm e'.fileName
  rw [hVsame]
  by_cases hcond : ((updateShapeSignature p fi.scriptInfo fi.lastCheckedShapeSignature).1
      && !fi.referencedBy.isEmpty) = true
  · rw [if_pos hcond]
    rw [pushFoldl_eq (fun q => visitedHas ws.visited q.fileName) fi.referencedBy rest]
    rw [List.countP_append]
    have hzero : (List.filter (fun q => !visitedHas ws.visited q.fileName)
        fi.referencedBy).reverse.countP (fun e' => visitedHas ws.visited e'.fileName) = 0 := by
      rw [List.countP_eq_zero]
      intro a ha
      have := List.mem_filter.1 (List.mem_reverse.1 ha)
      simp only [Bool.not_eq_true'] at this
      simp [this.2]
    rw [hzero, hpe]
    simp
  · rw [if_neg hcond, hpe]
    simp

/-- With well-formedness, the walk drains its queue: double strong
induction on the pair (unvisited nodes, visited queue entries), which the
step lemmas decrease lexicographically. -/
theorem walk_drains (p : Project) :
    ∀ (a b : Nat) (ws : WalkState), walkWF ws → unmarkedCount ws < a →
      markedQueueCount ws < b → ∃ n, (walkRun p n ws).queue = [] := by
  intro a
  induction a with
  | zero => intro b ws _ h1 _; exact absurd h1 (Nat.not_lt_zero _)
  | succ a iha =>
    intro b
    induction b with
    | zero => intro ws _ _ h2; exact absurd h2 (Nat.not_lt_zero _)
    | succ b ihb =>
      intro ws hwf h1 h2
      cases hq : ws.queue with
      | nil => exact ⟨0, hq⟩
      | cons e rest =>
        have hqe := hwf.2.1 e (by rw [hq]; exact List.mem_cons_self _ _)
        cases hfi : alookup ws.m e.path with
        | none =>
          rw [hfi] at hqe
          simp at hqe
        | some fi =>
          have hwf' := walkWF_step p ws hwf
          by_cases hm : visitedHas ws.visited fi.scriptInfo.fileName = true
          · have hb1 := unmarkedCount_eq_of_marked_pop p ws e rest fi
              ⟨hwf.1, hwf.2.1, hwf.2.2⟩ hq hfi hm
            have hb2 := markedQueueCount_lt_of_marked_pop p ws e rest fi
              ⟨hwf.1, hwf.2.1, hwf.2.2⟩ hq hfi hm
            obtain ⟨n, hn⟩ := ihb (walkStep p ws) hwf' (by omega) (by omega)
            exact ⟨n + 1, by rw [walkRun_succ_cons hq]; exact hn⟩
          · have hm2 : visitedHas ws.visited fi.scriptInfo.fileName = false := by
              simpa using hm
            have ha := unmarkedCount_lt_of_unmarked_pop p ws e rest fi
              ⟨hwf.1, hwf.2.1, hwf.2.2⟩ hq hfi hm2
            obtain ⟨n, hn⟩ := iha (markedQueueCount (walkStep p ws) + 1) (walkStep p ws) hwf'
              (by omega) (Nat.lt_succ_self _)
            exact ⟨n + 1, by rw [walkRun_succ_cons hq]; exact hn⟩

/-- Termination of the propagation walk for every well-formed state,
cycles included: some fuel drains the queue. -/
theorem walk_terminates (p : Project) (ws : WalkState) (h : walkWF ws) :
    ∃ n, (walkRun p n ws).queue = [] :=
  walk_drains p (unmarkedCount ws + 1) (markedQueueCount ws + 1) ws h
    (Nat.lt_succ_self _) (Nat.lt_succ_self _)

/-! ## Claim C6: queue discipline and termination of the walk -/

/-- Claim C6 (amended): the propagation walk never enqueues a node that is
already in the visited set, and — although a node can be enqueued more
than once before its first visit — the walk terminates for every shape of
the `referencedBy` graph, cycles included (some fuel drains the queue for
every well-formed state). -/
theorem claim_c6_walk_enqueue_and_termination :
    (∀ (p : Project) (ws : WalkState), walkWF ws → ∃ n, (walkRun p n ws).queue = []) ∧
    (∀ (p : Project) (ws : WalkState) (q : ScriptInfo), q ∈ (walkStep p ws).queue →
      q ∈ ws.queue ∨ visitedHas ws.visited q.fileName = false) := by
  constructor
  · exact fun p ws h => walk_terminates p ws h
  · intro p ws q
    unfold walkStep
    split
    · exact fun h => Or.inl h
    · rename_i e rest hq
      split
      · intro h
        exact Or.inl (by rw [hq]; exact List.mem_cons_of_mem _ h)
      · rename_i fi hfi
        dsimp only
        intro h
        by_cases hcond : ((updateShapeSignature p fi.scriptInfo fi.lastCheckedShapeSignature).1
            && !fi.referencedBy.isEmpty) = true
        · rw [if_pos hcond] at h
          rw [pushFoldl_eq (fun q => visitedHas ws.visited q.fileName) fi.referencedBy rest]
            at h
          rcases List.mem_append.1 h with h | h
          · have := List.mem_filter.1 (List.mem_reverse.1 h)
            right
            simpa using this.2
          · exact Or.inl (by rw [hq]; exact List.mem_cons_of_mem _ h)
        · rw [if_neg hcond] at h
          exact Or.inl (by rw [hq]; exact List.mem_cons_of_mem _ h)

/-- The seed file of the double-enqueue scenario. -/
def c6Seed : ScriptInfo := ⟨"x6", "x6.ts", false, false, "1"⟩

/-- The node popped first (referenced by the seed). -/
def c6FileP : ScriptInfo := ⟨"pp", "p.ts", false, false, "1"⟩

/-- The node that gets enqueued twice. -/
def c6FileQ : ScriptInfo := ⟨"q", "q.ts", false, false, "1"⟩

/-- The second reverse dependency of `c6FileP`, which also feeds
`c6FileQ`. -/
def c6FileR : ScriptInfo := ⟨"r", "r.ts", false, false, "1"⟩

/-- The project of the double-enqueue scenario: all files are declaration
files (every shape reads as changed on first inspection). -/
def c6Proj : Project where
  scriptInfos := [c6Seed, c6FileP, c6FileQ, c6FileR]
  projectVersion := "1"
  compilerOptions := ⟨none, none, false⟩
  sourceFiles := fun _ => some ⟨true, "t", [], true⟩
  dtsEmitOutput := fun _ => ⟨false, []⟩
  fullEmitOutput := fun _ => ⟨false, []⟩
  referencedFiles := fun _ => []
  allEmittableFiles := ["x6.ts", "p.ts", "q.ts", "r.ts"]
  createHash := fun t => "#" ++ t
  getScriptInfoByPath := fun pa =>
    if pa = "x6" then c6Seed else if pa = "pp" then c6FileP
    else if pa = "q" then c6FileQ else c6FileR
  projectRootPath := none

/-- The up-to-date graph of the double-enqueue scenario: the seed is
referenced by `p`, `p` by `q` and `r`, and `r` by `q`. -/
def c6St : ModState :=
  { fileInfos := [("x6", ⟨c6Seed, none, [], [c6FileP], some "1"⟩),
                  ("pp", ⟨c6FileP, none, [], [c6FileQ, c6FileR], some "1"⟩),
                  ("q", ⟨c6FileQ, none, [], [], some "1"⟩),
                  ("r", ⟨c6FileR, none, [], [c6FileQ], some "1"⟩)],
    projectVersionForDependencyGraph := some "1" }

/-- Claim C6, counterexample: after two steps of the walk started by
`getFilesAffectedBy(x6.ts)`, node `q` occupies two queue slots — it was
enqueued once while `p` was processed and again while `r` was processed,
before its first dequeue — so the walk does *not* enqueue each node at most
once. -/
theorem claim_c6_counterexample :
    (walkRun c6Proj 2 (moduleWalkStart c6Proj c6St c6Seed)).queue = [c6FileQ, c6FileQ] ∧
      ¬ (walkRun c6Proj 2 (moduleWalkStart c6Proj c6St c6Seed)).queue.Nodup := by
  decide

/-- Witness for the amended claim C6: the walk of the double-enqueue
scenario (a well-formed state) still drains. -/
theorem claim_c6_walk_enqueue_and_termination_witness :
    ∃ n, (walkRun c6Proj n (moduleWalkStart c6Proj c6St c6Seed)).queue = [] :=
  claim_c6_walk_enqueue_and_termination.1 c6Proj (moduleWalkStart c6Proj c6St c6Seed)
    (by decide)

/-! ## Stability of stored signatures across the walk -/

/-- Relation between a node of the walk's start table and the node seen at
the same key later during the walk: identity, edges and reference version
are untouched, and the stored signature is either the original one or the
result of one `updateShapeSignature` on it (which is a fixpoint from then
on). -/
def sigRel (p : Project) : Option MBInfo → Option MBInfo → Prop
  | none, none => True
  | some f0, some f =>
      f.scriptInfo = f0.scriptInfo ∧ f.references = f0.references ∧
      f.referencedBy = f0.referencedBy ∧
      f.scriptVersionForReferences = f0.scriptVersionForReferences ∧
      (f.lastCheckedShapeSignature = f0.lastCheckedShapeSignature ∨
        f.lastCheckedShapeSignature =
          (updateShapeSignature p f0.scriptInfo f0.lastCheckedShapeSignature).2)
  | _, _ => False

theorem sigRel_refl (p : Project) (o : Option MBInfo) : sigRel p o o := by
  cases o with
  | none => trivial
  | some f => exact ⟨rfl, rfl, rfl, rfl, Or.inl rfl⟩

theorem walkStep_sigRel (p : Project) (m0 : FInfoMap) (ws : WalkState)
    (h : ∀ k, sigRel p (alookup m0 k) (alookup ws.m k)) :
    ∀ k, sigRel p (alookup m0 k) (alookup (walkStep p ws).m k) := by
  intro k
  unfold walkStep
  split
  · exact h k
  · rename_i e rest hq
    split
    · exact h k
    · rename_i fi hfi
      dsimp only
      by_cases hk : k = e.path
      · subst hk
        rw [alookup_mapUpdate_self _ hfi]
        have h0 := h e.path
        rw [hfi] at h0
        cases hm0 : alookup m0 e.path with
        | none =>
          rw [hm0] at h0
          exact absurd h0 (by simp [sigRel])
        | some f0 =>
          rw [hm0] at h0
          obtain ⟨hsi, hrefs, hrb, hv, hsig⟩ := h0
          refine ⟨hsi, hrefs, hrb, hv, Or.inr ?_⟩
          rcases hsig with hsig | hsig
          · rw [hsi, hsig]
          · rw [hsi, hsig]
            exact updateShapeSignature_snd_idem p f0.scriptInfo f0.lastCheckedShapeSignature
      · rw [alookup_mapUpdate_ne _ hk]
        exact h k

theorem walkRun_sigRel (p : Project) (m0 : FInfoMap) :
    ∀ (n : Nat) (ws : WalkState), (∀ k, sigRel p (alookup m0 k) (alookup ws.m k)) →
      ∀ k, sigRel p (alookup m0 k) (alookup (walkRun p n ws).m k) := by
  intro n
  induction n with
  | zero => exact fun ws h => h
  | succ n ih =>
    intro ws h k
    cases hq : ws.queue with
    | nil =>
      rw [walkRun_queue_nil hq]
      exact h k
    | cons e rest =>
      rw [walkRun_succ_cons hq]
      exact ih (walkStep p ws) (walkStep_sigRel p m0 ws h) k

/-- Characterisation of the walk's start state when the node of the seed
file exists after the refresh. -/
theorem moduleWalkStart_eq_some (p : Project) (st : ModState) (si : ScriptInfo) (fi : MBInfo)
    (hfi : alookup (ensureProjectDependencyGraphUpToDate p st).fileInfos si.path = some fi) :
    moduleWalkStart p st si =
      { m := mapUpdate (ensureProjectDependencyGraphUpToDate p st).fileInfos si.path
          { fi with lastCheckedShapeSignature :=
              (updateShapeSignature p fi.scriptInfo fi.lastCheckedShapeSignature).2 },
        queue := fi.referencedBy.reverse,
        visited := [(si.fileName, si)] } := by
  unfold moduleWalkStart
  dsimp only
  split
  · rename_i hfi2
    rw [hfi] at hfi2
    simp at hfi2
  · rename_i fi2 hfi2
    rw [hfi] at hfi2
    rw [Option.some.injEq] at hfi2
    subst hfi2
    rfl

/-- Claim C5 (amended): calling `getFilesAffectedBy` twice with no
intervening edits returns the trivial single-file result on the second
call, provided the first call stored a shape signature for the file: the
graph is current, the file's node exists, its representation exists, it is
a declaration file or its dts emit has output, and hashes are non-empty.
The first call then caches the new signature (which the walk never
disturbs), so the second call's shape check reports no change. -/
theorem claim_c5_idempotent_when_signature_stored (p : Project) (st : ModState)
    (si : ScriptInfo) (fi : MBInfo) (sf : SourceFile)
    (hver : st.projectVersionForDependencyGraph = some p.projectVersion)
    (hne : p.projectVersion ≠ "")
    (hfi : alookup st.fileInfos si.path = some fi)
    (hsf : p.sourceFiles fi.scriptInfo.path = some sf)
    (hstore : sf.isDeclarationFile = true ∨ (p.dtsEmitOutput fi.scriptInfo.path).outputFiles ≠ [])
    (hhash : ∀ t, p.createHash t ≠ "") :
    ∀ fuel1 fuel2,
      (moduleGetFilesAffectedBy fuel2 p (moduleGetFilesAffectedBy fuel1 p st si).1 si).2 =
        singleFileResult si := by
  intro fuel1 fuel2
  have hens : ensureProjectDependencyGraphUpToDate p st = st := ensure_skip p st hver hne
  have hws := moduleWalkStart_eq_some p st si fi (by rw [hens]; exact hfi)
  rw [hens] at hws
  have hstate :
      (moduleGetFilesAffectedBy fuel1 p st si).1.projectVersionForDependencyGraph =
          some p.projectVersion ∧
        ∃ f, alookup (moduleGetFilesAffectedBy fuel1 p st si).1.fileInfos si.path = some f ∧
          f.scriptInfo = fi.scriptInfo ∧
          f.lastCheckedShapeSignature =
            (updateShapeSignature p fi.scriptInfo fi.lastCheckedShapeSignature).2 := by
    unfold moduleGetFilesAffectedBy
    rw [hens]
    simp only [hfi]
    split
    · exact ⟨hver, _, alookup_mapUpdate_self _ hfi, rfl, rfl⟩
    · split
      · exact ⟨hver, _, alookup_mapUpdate_self _ hfi, rfl, rfl⟩
      · split
        · exact ⟨hver, _, alookup_mapUpdate_self _ hfi, rfl, rfl⟩
        · refine ⟨hver, ?_⟩
          rw [hws]
          have hrel := walkRun_sigRel p
            (mapUpdate st.fileInfos si.path
              { fi with lastCheckedShapeSignature :=
                  (updateShapeSignature p fi.scriptInfo fi.lastCheckedShapeSignature).2 })
            fuel1
            ⟨mapUpdate st.fileInfos si.path
              { fi with lastCheckedShapeSignature :=
                  (updateShapeSignature p fi.scriptInfo fi.lastCheckedShapeSignature).2 },
              fi.referencedBy.reverse, [(si.fileName, si)]⟩
            (fun k => sigRel_refl p _) si.path
          rw [alookup_mapUpdate_self _ hfi] at hrel
          cases hf : alookup (walkRun p fuel1
              ⟨mapUpdate st.fileInfos si.path
                { fi with lastCheckedShapeSignature :=
                    (updateShapeSignature p fi.scriptInfo fi.lastCheckedShapeSignature).2 },
                fi.referencedBy.reverse, [(si.fileName, si)]⟩).m si.path with
          | none =>
            rw [hf] at hrel
            exact absurd hrel (by simp [sigRel])
          | some f =>
            rw [hf] at hrel
            obtain ⟨hsi2, _, _, _, hsig2⟩ := hrel
            refine ⟨f, rfl, hsi2, ?_⟩
            rcases hsig2 with h2 | h2
            · exact h2
            · rw [h2]
              exact updateShapeSignature_snd_idem p fi.scriptInfo fi.lastCheckedShapeSignature
  obtain ⟨ha, f, hf, hfsi, hfsig⟩ := hstate
  have hens2 : ensureProjectDependencyGraphUpToDate p (moduleGetFilesAffectedBy fuel1 p st si).1 =
      (moduleGetFilesAffectedBy fuel1 p st si).1 :=
    ensure_skip p _ ha hne
  have hr2 : (updateShapeSignature p f.scriptInfo f.lastCheckedShapeSignature).1 = false := by
    rw [hfsi, hfsig]
    exact updateShapeSignature_repeat_false p fi.scriptInfo fi.lastCheckedShapeSignature sf hsf
      hstore hhash
  conv_lhs => rw [moduleGetFilesAffectedBy]
  rw [hens2]
  simp only [hf]
  rw [if_pos hr2]

/-! ## Claim C4: the propagation closure of the walk -/

/-- The shape-changed verdict a node yields when first inspected (its
stored signature still being the one the walk started from). -/
def chg (p : Project) (fi : MBInfo) : Bool :=
  (updateShapeSignature p fi.scriptInfo fi.lastCheckedShapeSignature).1

/-- Reachability through shape-changing nodes, relative to the walk's
start table `m0` and initial queue `q0`: the initial queue entries are
reachable, and from a reachable changing node every reverse dependency is
reachable. -/
inductive ReachableChange (p : Project) (m0 : FInfoMap) (q0 : List ScriptInfo) : String → Prop
  | init (e : ScriptInfo) (he : e ∈ q0) : ReachableChange p m0 q0 e.path
  | step (k : String) (fi : MBInfo) (q : ScriptInfo) (hk : ReachableChange p m0 q0 k)
      (hfi : alookup m0 k = some fi) (hchg : chg p fi = true) (hq : q ∈ fi.referencedBy) :
      ReachableChange p m0 q0 q.path

/-- A chain of reverse-dependency edges starting at `cur` whose every node
except the last has a changing shape: `chainFromB p m0 cur [n1, …, nk]`
demands an edge `cur → n1 → … → nk` along `referencedBy`, with
`cur, n1, …, n_{k-1}` all shape-changing. -/
def chainFromB (p : Project) (m0 : FInfoMap) : ScriptInfo → List ScriptInfo → Bool
  | _, [] => true
  | cur, nxt :: restc =>
    match alookup m0 cur.path with
    | none => false
    | some f =>
      (f.scriptInfo == cur && chg p f && decide (nxt ∈ f.referencedBy)) &&
        chainFromB p m0 nxt restc

/-- The walk invariant, relative to the start state `ws0`: well-formedness,
signature stability, untouched signatures for unvisited nodes, closure
membership of queue and visited entries, and the two progress facts that
make the visited set a fixpoint at drain time. -/
structure WalkInv (p : Project) (ws0 ws : WalkState) : Prop where
  wf : walkWF ws
  rel : ∀ k, sigRel p (alookup ws0.m k) (alookup ws.m k)
  unvisited_sig : ∀ k f0 f, alookup ws0.m k = some f0 → alookup ws.m k = some f →
    visitedHas ws.visited f.scriptInfo.fileName = false →
    f.lastCheckedShapeSignature = f0.lastCheckedShapeSignature
  queue_reach : ∀ e ∈ ws.queue, ReachableChange p ws0.m ws0.queue e.path
  visited_reach : ∀ kv ∈ ws.visited, kv ∈ ws0.visited ∨
    ∃ k f0, alookup ws0.m k = some f0 ∧ f0.scriptInfo = kv.2 ∧ kv.1 = kv.2.fileName ∧
      ReachableChange p ws0.m ws0.queue k
  init_progress : ∀ e ∈ ws0.queue, visitedHas ws.visited e.fileName = true ∨ e ∈ ws.queue
  succ_progress : ∀ k f0 f, alookup ws0.m k = some f0 → alookup ws.m k = some f →
    visitedHas ws.visited f.scriptInfo.fileName = true → chg p f0 = true →
    ∀ q ∈ f.referencedBy, visitedHas ws.visited q.fileName = true ∨ q ∈ ws.queue

/-- A walk step on an empty queue is the identity. -/
theorem walkStep_eq_nil (p : Project) (ws : WalkState) (hq : ws.queue = []) :
    walkStep p ws = ws := by
  unfold walkStep
  split
  · rfl
  · rename_i e rest heq
    rw [hq] at heq
    simp at heq

/-- The invariant holds at the start state, provided the start state is
well-formed and its only visited entry (the seed) already has its reverse
dependencies in the initial queue when its shape changes. -/
theorem walkInv_init (p : Project) (ws0 : WalkState) (hwf : walkWF ws0)
    (hseed : ∀ k f, alookup ws0.m k = some f →
      visitedHas ws0.visited f.scriptInfo.fileName = true → chg p f = true →
      ∀ q ∈ f.referencedBy, visitedHas ws0.visited q.fileName = true ∨ q ∈ ws0.queue) :
    WalkInv p ws0 ws0 where
  wf := hwf
  rel := fun _ => sigRel_refl p _
  unvisited_sig := fun k f0 f h0 h _ => by
    rw [h0] at h
    rw [Option.some.injEq] at h
    rw [h]
  queue_reach := fun e he => ReachableChange.init e he
  visited_reach := fun kv hkv => Or.inl hkv
  init_progress := fun e he => Or.inr he
  succ_progress := fun k f0 f h0 h hv hc q hq => by
    rw [h0] at h
    rw [Option.some.injEq] at h
    subst h
    exact hseed k f0 h0 hv hc q hq

/-- One walk step preserves the invariant. -/
theorem walkInv_step (p : Project) (ws0 ws : WalkState) (hinv : WalkInv p ws0 ws) :
    WalkInv p ws0 (walkStep p ws) := by
  obtain ⟨hwf, hrel, hus, hqr, hvr, hip, hsp⟩ := hinv
  have hwf2 := walkWF_step p ws hwf
  have hrel2 := walkStep_sigRel p ws0.m ws hrel
  cases hq : ws.queue with
  | nil =>
    rw [walkStep_eq_nil p ws hq]
    exact ⟨hwf, hrel, hus, hqr, hvr, hip, hsp⟩
  | cons e rest =>
    have hqe := hwf.2.1 e (by rw [hq]; exact List.mem_cons_self _ _)
    cases hfi : alookup ws.m e.path with
    | none =>
      rw [hfi] at hqe
      simp at hqe
    | some fi =>
      have hfiSI : fi.scriptInfo = e := by
        rw [hfi] at hqe
        simpa using hqe
      have hmem : (e.path, fi) ∈ ws.m := alookup_mem hfi
      have hreach_e : ReachableChange p ws0.m ws0.queue e.path :=
        hqr e (by rw [hq]; exact List.mem_cons_self _ _)
      have hrel_e := hrel e.path
      rw [hfi] at hrel_e
      cases hm0 : alookup ws0.m e.path with
      | none =>
        rw [hm0] at hrel_e
        exact absurd hrel_e (by simp [sigRel])
      | some f0 =>
        rw [hm0] at hrel_e
        obtain ⟨hsi0, hrefs0, hrb0, hv0, hsig0⟩ := hrel_e
        have hchg_imp :
            (updateShapeSignature p fi.scriptInfo fi.lastCheckedShapeSignature).1 = true →
              chg p f0 = true := by
          intro hcur
          unfold chg
          rcases hsig0 with hs | hs
          · rw [hsi0, hs] at hcur
            exact hcur
          · rw [hsi0, hs] at hcur
            exact updateShapeSignature_fst_mono p f0.scriptInfo f0.lastCheckedShapeSignature hcur
        rw [walkStep_eq_some p ws e rest fi hq hfi] at hwf2 hrel2 ⊢
        have hrest_sub : ∀ x ∈ rest,
            x ∈ (if ((updateShapeSignature p fi.scriptInfo fi.lastCheckedShapeSignature).1
                && !fi.referencedBy.isEmpty) = true then
              fi.referencedBy.foldl
                (fun acc q => if visitedHas ws.visited q.fileName then acc else q :: acc) rest
            else rest) := by
          intro x hx
          by_cases hcond : ((updateShapeSignature p fi.scriptInfo fi.lastCheckedShapeSignature).1
              && !fi.referencedBy.isEmpty) = true
          · rw [if_pos hcond,
              pushFoldl_eq (fun q => visitedHas ws.visited q.fileName) fi.referencedBy rest]
            exact List.mem_append_right _ hx
          · rw [if_neg hcond]
            exact hx
        refine ⟨hwf2, hrel2, ?_, ?_, ?_, ?_, ?_⟩
        · intro k g0 g h0 hg hfn
          have hfn_parts := Bool.or_eq_false_iff.1
            (by rw [← visitedHas_visitedSet]; exact hfn)
          by_cases hk : k = e.path
          · subst hk
            rw [alookup_mapUpdate_self _ hfi] at hg
            rw [Option.some.injEq] at hg
            exfalso
            have hbx : (g.scriptInfo.fileName == fi.scriptInfo.fileName) = false := hfn_parts.2
            rw [← hg] at hbx
            simp at hbx
          · rw [alookup_mapUpdate_ne _ hk] at hg
            exact hus k g0 g h0 hg hfn_parts.1
        · intro e' he'
          by_cases hcond : ((updateShapeSignature p fi.scriptInfo fi.lastCheckedShapeSignature).1
              && !fi.referencedBy.isEmpty) = true
          · rw [if_pos hcond,
              pushFoldl_eq (fun q => visitedHas ws.visited q.fileName) fi.referencedBy rest]
              at he'
            rcases List.mem_append.1 he' with he' | he'
            · have hf := List.mem_filter.1 (List.mem_reverse.1 he')
              have hcond2 := hcond
              rw [Bool.and_eq_true] at hcond2
              have hr1 : (updateShapeSignature p fi.scriptInfo
                  fi.lastCheckedShapeSignature).1 = true := hcond2.1
              exact ReachableChange.step e.path f0 e' hreach_e hm0 (hchg_imp hr1)
                (by rw [← hrb0]; exact hf.1)
            · exact hqr e' (by rw [hq]; exact List.mem_cons_of_mem _ he')
          · rw [if_neg hcond] at he'
            exact hqr e' (by rw [hq]; exact List.mem_cons_of_mem _ he')
        · intro kv hkv
          rcases mem_visitedSet hkv with hkv | hkv
          · exact hvr kv hkv
          · right
            exact ⟨e.path, f0, hm0, by rw [hkv]; exact hsi0.symm, by rw [hkv], hreach_e⟩
        · intro e0 he0
          rcases hip e0 he0 with hmk | hqm
          · left
            rw [visitedHas_visitedSet, hmk]
            simp
          · rw [hq] at hqm
            rcases List.mem_cons.1 hqm with he0e | hqm
            · left
              rw [visitedHas_visitedSet, he0e, ← hfiSI]
              simp
            · exact Or.inr (hrest_sub e0 hqm)
        · intro k g0 g h0 hg hvk hcg q hqmem
          by_cases hk : k = e.path
          · subst hk
            rw [alookup_mapUpdate_self _ hfi] at hg
            rw [Option.some.injEq] at hg
            subst hg
            rw [hm0] at h0
            rw [Option.some.injEq] at h0
            subst h0
            by_cases hmv : visitedHas ws.visited fi.scriptInfo.fileName = true
            · have hold := hsp e.path f0 fi hm0 hfi hmv hcg q hqmem
              rcases hold with hqv | hqq
              · left
                rw [visitedHas_visitedSet, hqv]
                simp
              · rw [hq] at hqq
                rcases List.mem_cons.1 hqq with hqe2 | hqq
                · left
                  rw [visitedHas_visitedSet, hqe2, ← hfiSI]
                  simp
                · exact Or.inr (hrest_sub q hqq)
            · have hmv2 : visitedHas ws.visited fi.scriptInfo.fileName = false := by
                simpa using hmv
              have hsig_eq : fi.lastCheckedShapeSignature = f0.lastCheckedShapeSignature :=
                hus e.path f0 fi hm0 hfi hmv2
              have hr1 : (updateShapeSignature p fi.scriptInfo
                  fi.lastCheckedShapeSignature).1 = true := by
                rw [hsi0, hsig_eq]
                exact hcg
              have hne2 : fi.referencedBy.isEmpty = false := by
                cases hrb : fi.referencedBy with
                | nil => rw [hrb] at hqmem; cases hqmem
                | cons a l => rfl
              by_cases hqv : visitedHas ws.visited q.fileName = true
              · left
                rw [visitedHas_visitedSet, hqv]
                simp
              · right
                have hqv2 : visitedHas ws.visited q.fileName = false := by simpa using hqv
                rw [if_pos (by rw [hr1, hne2]; rfl)]
                rw [pushFoldl_eq (fun q => visitedHas ws.visited q.fileName) fi.referencedBy rest]
                apply List.mem_append_left
                apply List.mem_reverse.2
                apply List.mem_filter.2
                exact ⟨hqmem, by rw [hqv2]; rfl⟩
          · rw [alookup_mapUpdate_ne _ hk] at hg
            rw [visitedHas_visitedSet, Bool.or_eq_true] at hvk
            rcases hvk with hvk | hvk
            · have hold := hsp k g0 g h0 hg hvk hcg q hqmem
              rcases hold with hqv | hqq
              · left
                rw [visitedHas_visitedSet, hqv]
                simp
              · rw [hq] at hqq
                rcases List.mem_cons.1 hqq with hqe2 | hqq
                · left
                  rw [visitedHas_visitedSet, hqe2, ← hfiSI]
                  simp
                · exact Or.inr (hrest_sub q hqq)
            · exfalso
              have hfname : g.scriptInfo.fileName = fi.scriptInfo.fileName := by simpa using hvk
              exact hk (hwf.1.2.2.1 (k, g) (alookup_mem hg) (e.path, fi) hmem hfname)

/-- The invariant is preserved by any number of walk iterations. -/
theorem walkInv_run (p : Project) (ws0 : WalkState) :
    ∀ (n : Nat) (ws : WalkState), WalkInv p ws0 ws → WalkInv p ws0 (walkRun p n ws) := by
  intro n
  induction n with
  | zero => exact fun ws h => h
  | succ n ih =>
    intro ws h
    cases hq : ws.queue with
    | nil =>
      rw [walkRun_queue_nil hq]
      exact h
    | cons e rest =>
      rw [walkRun_succ_cons hq]
      exact ih (walkStep p ws) (walkInv_step p ws0 ws h)

/-- At a drained state, a visited node propagates along any chain of
shape-changing reverse dependencies: the last node of the chain is visited
as well. -/
theorem chain_marked (p : Project) (ws0 wsF : WalkState) (hinv : WalkInv p ws0 wsF)
    (hdr : wsF.queue = []) :
    ∀ (c : List ScriptInfo) (s1 : ScriptInfo), visitedHas wsF.visited s1.fileName = true →
      chainFromB p ws0.m s1 c = true →
      visitedHas wsF.visited (c.getLastD s1).fileName = true := by
  intro c
  induction c with
  | nil =>
    intro s1 h _
    simpa using h
  | cons nxt restc ih =>
    intro s1 h hchain
    unfold chainFromB at hchain
    cases hf : alookup ws0.m s1.path with
    | none =>
      rw [hf] at hchain
      simp at hchain
    | some f =>
      rw [hf] at hchain
      simp only [Bool.and_eq_true] at hchain
      obtain ⟨⟨⟨hfsi, hfchg⟩, hfmem⟩, hrest⟩ := hchain
      have hfsi2 : f.scriptInfo = s1 := by simpa using hfsi
      have hfmem2 : nxt ∈ f.referencedBy := of_decide_eq_true hfmem
      have hrelk := hinv.rel s1.path
      rw [hf] at hrelk
      cases hg : alookup wsF.m s1.path with
      | none =>
        rw [hg] at hrelk
        exact absurd hrelk (by simp [sigRel])
      | some g =>
        rw [hg] at hrelk
        obtain ⟨hgsi, _, hgrb, _, _⟩ := hrelk
        have hmarked : visitedHas wsF.visited g.scriptInfo.fileName = true := by
          rw [hgsi, hfsi2]
          exact h
        have hstep := hinv.succ_progress s1.path f g hf hg hmarked hfchg nxt
          (by rw [hgrb]; exact hfmem2)
        rcases hstep with hnm | hnq
        · rw [List.getLastD_cons]
          exact ih nxt hnm hrest
        · rw [hdr] at hnq
          cases hnq

/-- Every node of a chain, the last one included, is a live node of a
well-formed table whose stored identity matches the chain entry. -/
theorem chain_last_node (p : Project) (m0 : FInfoMap) (hwf : mapWF m0) :
    ∀ (c : List ScriptInfo) (s1 : ScriptInfo),
      (∃ f, alookup m0 s1.path = some f ∧ f.scriptInfo = s1) →
      chainFromB p m0 s1 c = true →
      ∃ fz, alookup m0 (c.getLastD s1).path = some fz ∧ fz.scriptInfo = c.getLastD s1 := by
  intro c
  induction c with
  | nil =>
    intro s1 h _
    simpa using h
  | cons nxt restc ih =>
    intro s1 h hchain
    unfold chainFromB at hchain
    cases hf : alookup m0 s1.path with
    | none =>
      rw [hf] at hchain
      simp at hchain
    | some f =>
      rw [hf] at hchain
      simp only [Bool.and_eq_true] at hchain
      obtain ⟨⟨⟨hfsi, _⟩, hfmem⟩, hrest⟩ := hchain
      have hfmem2 : nxt ∈ f.referencedBy := of_decide_eq_true hfmem
      have hedge := hwf.2.2.2 (s1.path, f) (alookup_mem hf) nxt hfmem2
      rw [List.getLastD_cons]
      apply ih nxt _ hrest
      cases hz : alookup m0 nxt.path with
      | none =>
        rw [hz] at hedge
        simp at hedge
      | some fz =>
        rw [hz] at hedge
        exact ⟨fz, rfl, by simpa using hedge⟩

/-- Membership in the final `fileNameSet.forEach` fold. -/
theorem mem_walkResult_fold :
    ∀ (l : List (String × ScriptInfo)) (acc : List String) (n : String),
      (n ∈ l.foldl (fun acc kv => if shouldEmitFile kv.2 then acc ++ [kv.1] else acc) acc) ↔
        (n ∈ acc ∨ ∃ v, (n, v) ∈ l ∧ shouldEmitFile v = true) := by
  intro l
  induction l with
  | nil =>
    intro acc n
    simp
  | cons kv restl ih =>
    intro acc n
    rw [List.foldl_cons]
    by_cases hkv : shouldEmitFile kv.2 = true
    · rw [if_pos hkv, ih]
      constructor
      · rintro (h | ⟨v, hv, he⟩)
        · rcases List.mem_append.1 h with h | h
          · exact Or.inl h
          · right
            refine ⟨kv.2, ?_, hkv⟩
            rw [List.mem_singleton] at h
            subst h
            exact Prod.mk.eta ▸ List.mem_cons_self _ _
        · exact Or.inr ⟨v, List.mem_cons_of_mem _ hv, he⟩
      · rintro (h | ⟨v, hv, he⟩)
        · exact Or.inl (List.mem_append_left _ h)
        · rcases List.mem_cons.1 hv with hv | hv
          · left
            apply List.mem_append_right
            simp [← hv]
          · exact Or.inr ⟨v, hv, he⟩
    · rw [if_neg hkv, ih]
      constructor
      · rintro (h | ⟨v, hv, he⟩)
        · exact Or.inl h
        · exact Or.inr ⟨v, List.mem_cons_of_mem _ hv, he⟩
      · rintro (h | ⟨v, hv, he⟩)
        · exact Or.inl h
        · rcases List.mem_cons.1 hv with hv | hv
          · exfalso
            apply hkv
            rw [← hv]
            exact he
          · exact Or.inr ⟨v, hv, he⟩

/-- Membership in the walk's result list. -/
theorem mem_walkResult (ws : WalkState) (n : String) :
    n ∈ walkResult ws ↔ ∃ v, (n, v) ∈ ws.visited ∧ shouldEmitFile v = true := by
  unfold walkResult
  rw [mem_walkResult_fold]
  simp

/-- Claim C4: propagation closure of `getFilesAffectedBy`.  When the seed
file's node exists, its shape changed, it is module-or-ambient-only, no
output-mode short-circuit applies, and the walk drains within the given
fuel, then (completeness) every chain of reverse-dependency edges starting
in the seed's `referencedBy` whose nodes before the last all have changing
shapes ends in a file that appears in the result (when emittable), and
(soundness) every name in the result is the seed or a node reachable from
the initial queue through shape-changing nodes — no node beyond a
non-contributing non-changing node appears. -/
theorem claim_c4_propagation_closure
    (fuel : Nat) (p : Project) (st : ModState) (si : ScriptInfo) (fi : MBInfo)
    (hfi : alookup (ensureProjectDependencyGraphUpToDate p st).fileInfos si.path = some fi)
    (hsi : fi.scriptInfo = si)
    (hchg : (updateShapeSignature p fi.scriptInfo fi.lastCheckedShapeSignature).1 = true)
    (hmod : isExternalModuleOrHasOnlyAmbientExternalModules p fi.scriptInfo = true)
    (hiso : p.compilerOptions.isolatedModules = false)
    (hout : jsTruthyStr p.compilerOptions.out = false)
    (houtf : jsTruthyStr p.compilerOptions.outFile = false)
    (hwf : walkWF (moduleWalkStart p st si))
    (hdrain : (walkRun p fuel (moduleWalkStart p st si)).queue = []) :
    (∀ (s1 : ScriptInfo) (c : List ScriptInfo), s1 ∈ fi.referencedBy →
      chainFromB p (moduleWalkStart p st si).m s1 c = true →
      shouldEmitFile (c.getLastD s1) = true →
      (c.getLastD s1).fileName ∈ (moduleGetFilesAffectedBy fuel p st si).2) ∧
    (∀ name ∈ (moduleGetFilesAffectedBy fuel p st si).2,
      name = si.fileName ∨
      ∃ k f0, alookup (moduleWalkStart p st si).m k = some f0 ∧
        f0.scriptInfo.fileName = name ∧
        ReachableChange p (moduleWalkStart p st si).m (moduleWalkStart p st si).queue k) := by
  have hws0 := moduleWalkStart_eq_some p st si fi hfi
  have hresult : (moduleGetFilesAffectedBy fuel p st si).2 =
      walkResult (walkRun p fuel (moduleWalkStart p st si)) := by
    unfold moduleGetFilesAffectedBy
    dsimp only
    simp only [hfi]
    rw [if_neg (by rw [hchg]; simp), if_neg (by rw [hmod]; simp),
      if_neg (by rw [hiso, hout, houtf]; simp)]
  have hfi0 : alookup (moduleWalkStart p st si).m si.path = some
      { fi with lastCheckedShapeSignature :=
          (updateShapeSignature p fi.scriptInfo fi.lastCheckedShapeSignature).2 } := by
    rw [hws0]
    exact alookup_mapUpdate_self _ hfi
  have hinit : WalkInv p (moduleWalkStart p st si) (moduleWalkStart p st si) := by
    apply walkInv_init p _ hwf
    intro k f hkf hkv hkc q hqm
    have hv0 : (moduleWalkStart p st si).visited = [(si.fileName, si)] := by rw [hws0]
    rw [hv0] at hkv
    have hfn : f.scriptInfo.fileName = si.fileName := by
      simp [visitedHas] at hkv
      exact hkv.symm
    have hk : k = si.path := by
      apply hwf.1.2.2.1 (k, f) (alookup_mem hkf) (si.path, _) (alookup_mem hfi0)
      show f.scriptInfo.fileName = fi.scriptInfo.fileName
      rw [hfn, hsi]
    subst hk
    rw [hfi0] at hkf
    rw [Option.some.injEq] at hkf
    subst hkf
    right
    rw [hws0]
    exact List.mem_reverse.2 hqm
  have hinv := walkInv_run p (moduleWalkStart p st si) fuel (moduleWalkStart p st si) hinit
  constructor
  · intro s1 c hs1 hchain hemit
    have hs1q : s1 ∈ (moduleWalkStart p st si).queue := by
      rw [hws0]
      exact List.mem_reverse.2 hs1
    have hm1 : visitedHas (walkRun p fuel (moduleWalkStart p st si)).visited s1.fileName
        = true := by
      rcases hinv.init_progress s1 hs1q with h | h
      · exact h
      · rw [hdrain] at h
        cases h
    have hmz := chain_marked p _ _ hinv hdrain c s1 hm1 hchain
    obtain ⟨v, hv⟩ := exists_of_visitedHas hmz
    have hs1node : ∃ fnode, alookup (moduleWalkStart p st si).m s1.path = some fnode ∧
        fnode.scriptInfo = s1 := by
      have hedge := hwf.1.2.2.2 (si.path, _) (alookup_mem hfi0) s1 hs1
      cases hz : alookup (moduleWalkStart p st si).m s1.path with
      | none =>
        rw [hz] at hedge
        simp at hedge
      | some fnode =>
        rw [hz] at hedge
        exact ⟨fnode, rfl, by simpa using hedge⟩
    obtain ⟨fz, hfz, hfzsi⟩ :=
      chain_last_node p (moduleWalkStart p st si).m hwf.1 c s1 hs1node hchain
    have hvz : v = c.getLastD s1 := by
      rcases hinv.visited_reach _ hv with hkv | ⟨k, f0, hf0, hfsiv, hfnv, _⟩
      · rw [hws0] at hkv
        rw [List.mem_singleton, Prod.mk.injEq] at hkv
        obtain ⟨hnm, hvv⟩ := hkv
        have hkZ : (c.getLastD s1).path = si.path := by
          apply hwf.1.2.2.1 ((c.getLastD s1).path, fz) (alookup_mem hfz) (si.path, _)
            (alookup_mem hfi0)
          show fz.scriptInfo.fileName = fi.scriptInfo.fileName
          rw [hfzsi, hnm, hsi]
        have hfzfi : fz.scriptInfo = fi.scriptInfo := by
          have hlook := hfz
          rw [hkZ, hfi0] at hlook
          rw [Option.some.injEq] at hlook
          rw [← hlook]
        rw [hvv, ← hsi, ← hfzfi]
        exact hfzsi
      · dsimp only at hfsiv hfnv
        have hkZ : k = (c.getLastD s1).path := by
          apply hwf.1.2.2.1 (k, f0) (alookup_mem hf0) ((c.getLastD s1).path, fz)
            (alookup_mem hfz)
          show f0.scriptInfo.fileName = fz.scriptInfo.fileName
          rw [hfsiv, hfzsi, ← hfnv]
        have hf0z : f0 = fz := by
          have hlook := hf0
          rw [hkZ, hfz] at hlook
          rw [Option.some.injEq] at hlook
          exact hlook.symm
        rw [← hfsiv, hf0z]
        exact hfzsi
    rw [hresult, mem_walkResult]
    exact ⟨v, hv, by rw [hvz]; exact hemit⟩
  · intro name hname
    rw [hresult, mem_walkResult] at hname
    obtain ⟨v, hv, _⟩ := hname
    rcases hinv.visited_reach _ hv with hkv | ⟨k, f0, hf0, hfsiv, hfnv, hreach⟩
    · left
      rw [hws0] at hkv
      rw [List.mem_singleton, Prod.mk.injEq] at hkv
      exact hkv.1
    · right
      dsimp only at hfsiv hfnv
      exact ⟨k, f0, hf0, by rw [hfsiv]; exact hfnv.symm, hreach⟩

/-- The seed file of the chain scenario (`a4` is referenced by `b4`,
`b4` by `c4`). -/
def c4FileA : ScriptInfo := ⟨"a4", "a4.ts", false, false, "1"⟩

/-- The intermediate file of the chain scenario. -/
def c4FileB : ScriptInfo := ⟨"b4", "b4.ts", false, false, "1"⟩

/-- The last file of the chain scenario. -/
def c4FileC : ScriptInfo := ⟨"c4", "c4.ts", false, false, "1"⟩

/-- The project of the chain scenario: three declaration-file modules, all
with changing shapes on first inspection. -/
def c4Proj : Project where
  scriptInfos := [c4FileA, c4FileB, c4FileC]
  projectVersion := "1"
  compilerOptions := ⟨none, none, false⟩
  sourceFiles := fun _ => some ⟨true, "t", [], true⟩
  dtsEmitOutput := fun _ => ⟨false, []⟩
  fullEmitOutput := fun _ => ⟨false, []⟩
  referencedFiles := fun _ => []
  allEmittableFiles := ["a4.ts", "b4.ts", "c4.ts"]
  createHash := fun t => "#" ++ t
  getScriptInfoByPath := fun pa =>
    if pa = "a4" then c4FileA else if pa = "b4" then c4FileB else c4FileC
  projectRootPath := none

/-- The up-to-date graph of the chain scenario. -/
def c4St : ModState :=
  { fileInfos := [("a4", ⟨c4FileA, none, [], [c4FileB], some "1"⟩),
                  ("b4", ⟨c4FileB, none, [c4FileA], [c4FileC], some "1"⟩),
                  ("c4", ⟨c4FileC, none, [c4FileB], [], some "1"⟩)],
    projectVersionForDependencyGraph := some "1" }

/-- Witness for claim C4 at the concrete chain `a4 ← b4 ← c4`: editing
`a4.ts` propagates to `c4.ts`. -/
theorem claim_c4_propagation_closure_witness :
    ([c4FileC].getLastD c4FileB).fileName ∈ (moduleGetFilesAffectedBy 9 c4Proj c4St c4FileA).2 :=
  (claim_c4_propagation_closure 9 c4Proj c4St c4FileA
      ⟨c4FileA, none, [], [c4FileB], some "1"⟩ (by decide) rfl (by decide) (by decide)
      rfl rfl rfl (by decide) (by decide)).1
    c4FileB [c4FileC] (by decide) (by decide) (by decide)

/-- The file of the claim C5 witness scenario. -/
def c5WFile : ScriptInfo := ⟨"w5", "w5.ts", false, false, "1"⟩

/-- A one-file project whose file is a declaration file (so a signature is
always stored). -/
def c5WProj : Project where
  scriptInfos := [c5WFile]
  projectVersion := "1"
  compilerOptions := ⟨none, none, false⟩
  sourceFiles := fun _ => some ⟨true, "tw", [], true⟩
  dtsEmitOutput := fun _ => ⟨false, []⟩
  fullEmitOutput := fun _ => ⟨false, []⟩
  referencedFiles := fun _ => []
  allEmittableFiles := ["w5.ts"]
  createHash := fun t => "#" ++ t
  getScriptInfoByPath := fun _ => c5WFile
  projectRootPath := none

/-- The up-to-date one-node graph for the claim C5 witness. -/
def c5WSt : ModState :=
  { fileInfos := [("w5", ⟨c5WFile, none, [], [], some "1"⟩)],
    projectVersionForDependencyGraph := some "1" }

/-- Witness for the amended claim C5 at a concrete declaration file. -/
theorem claim_c5_idempotent_when_signature_stored_witness :
    (moduleGetFilesAffectedBy 1 c5WProj
        (moduleGetFilesAffectedBy 1 c5WProj c5WSt c5WFile).1 c5WFile).2 =
      singleFileResult c5WFile :=
  claim_c5_idempotent_when_signature_stored c5WProj c5WSt c5WFile
    ⟨c5WFile, none, [], [], some "1"⟩ ⟨true, "tw", [], true⟩ rfl (by decide) rfl rfl
    (Or.inl rfl)
    (fun t h => by
      simp only [c5WProj] at h
      have h2 := congrArg String.length h
      simp [String.length_append] at h2
      exact absurd h2.1 (by decide)) 1 1
